import Mathlib

/-!
# Authentication token subsystem of the trades-marketplace backend

A shallow embedding of the authentication core of `src/main.py` (credential
hashing, token issuance, token verification) together with the pieces of
`src/schemas.py` it depends on (`AuthUser`, the `Role` literal type).

Modelling conventions:

* Python `str` values are `List Char` (sequences of Unicode scalar values);
  Python `bytes` values are `List Nat` with every entry below 256.
* Wall-clock time (`time.time()`, spec section 6: "seconds since epoch") is an
  explicit `Int` parameter threaded through `create_token` / `verify_token`:
  the model quantifies over the integral instants.
* Fallible Python code (paths that raise and are caught, or that raise and
  escape) is modelled with `Option`: `none` is the exceptional outcome.
* The pydantic `EmailStr` validator is an external library whose exact
  acceptance set is irrelevant to the code under verification; it is threaded
  through as an abstract predicate `emailOk : List Char → Bool`.  An
  `AuthUser` constructed by the application always carries an address that
  passed this validator.
* Python floats are IEEE-754 binary64 values; a finite double is carried as
  its exact (dyadic) rational value, and decimal-to-double conversion is the
  correctly rounded operation CPython performs (`doubleOfPosDecimal`).
* JSON strings encoding lone UTF-16 surrogates (values not representable as
  Lean `Char`) are mapped to parse failure: such texts denote Python strings
  outside the embedding's value space.
-/

namespace TradesAuth

/-- Character list of a string literal (Python `str` values are `List Char`). -/
def cs (s : String) : List Char := s.toList

/-- All characters of the list are ASCII (code point below 128). -/
def AllAscii (l : List Char) : Prop := ∀ c ∈ l, c.toNat < 128

/-- The `str.encode('ascii')` admission test performed by
`base64._bytes_from_decode_data` on string input: every character below
128.  A failure is a `ValueError`. -/
def isAsciiStr (s : List Char) : Bool := s.all (fun c => decide (c.toNat < 128))

/-- All bytes of the list are in range (below 256). -/
def AllBytes (l : List Nat) : Prop := ∀ b ∈ l, b < 256

/-! ## UTF-8 (`str.encode()` / `bytes.decode()`) -/

/-- UTF-8 encoding of a single scalar value, as Python's `str.encode()`
produces for each character. -/
def utf8Char (c : Char) : List Nat :=
  let n := c.toNat
  if n < 128 then [n]
  else if n < 2048 then [192 + n / 64, 128 + n % 64]
  else if n < 65536 then [224 + n / 4096, 128 + n / 64 % 64, 128 + n % 64]
  else [240 + n / 262144, 128 + n / 4096 % 64, 128 + n / 64 % 64, 128 + n % 64]

/-- `str.encode()`: UTF-8 bytes of a Python string. -/
def utf8Encode (s : List Char) : List Nat := s.flatMap utf8Char

/-- Validity of the continuation byte of a two-byte UTF-8 sequence. -/
def cont2Ok (b b2 : Nat) : Bool := 194 ≤ b && b < 224 && 128 ≤ b2 && b2 < 192

/-- The scalar value of a two-byte UTF-8 sequence. -/
def char2 (b b2 : Nat) : Char := Char.ofNat ((b - 192) * 64 + (b2 - 128))

/-- Validity of the continuation bytes of a three-byte UTF-8 sequence
(excluding overlong forms and surrogates, as Python's strict decoder does). -/
def cont3Ok (b b2 b3 : Nat) : Bool :=
  224 ≤ b && b < 240 && (if b = 224 then 160 else 128) ≤ b2 &&
    b2 < (if b = 237 then 160 else 192) && 128 ≤ b3 && b3 < 192

/-- The scalar value of a three-byte UTF-8 sequence. -/
def char3 (b b2 b3 : Nat) : Char :=
  Char.ofNat ((b - 224) * 4096 + (b2 - 128) * 64 + (b3 - 128))

/-- Validity of the continuation bytes of a four-byte UTF-8 sequence. -/
def cont4Ok (b b2 b3 b4 : Nat) : Bool :=
  240 ≤ b && b < 245 && (if b = 240 then 144 else 128) ≤ b2 &&
    b2 < (if b = 244 then 144 else 192) && 128 ≤ b3 && b3 < 192 && 128 ≤ b4 && b4 < 192

/-- The scalar value of a four-byte UTF-8 sequence. -/
def char4 (b b2 b3 b4 : Nat) : Char :=
  Char.ofNat ((b - 240) * 262144 + (b2 - 128) * 4096 + (b3 - 128) * 64 + (b4 - 128))

mutual

/-- Fuelled strict UTF-8 decoding loop; the fuel strictly decreases on every
call and `utf8Decode` supplies more than the input can consume, so it never
runs out. -/
def utf8DecodeF : Nat → List Nat → Option (List Char)
  | 0, _ => none
  | _ + 1, [] => some []
  | fuel + 1, b :: rest =>
    if b < 128 then (utf8DecodeF fuel rest).map (fun s => Char.ofNat b :: s)
    else if b < 224 then utf8Two fuel b rest
    else if b < 240 then utf8Three fuel b rest
    else utf8Four fuel b rest

/-- A two-byte UTF-8 sequence after its lead byte. -/
def utf8Two : Nat → Nat → List Nat → Option (List Char)
  | 0, _, _ => none
  | fuel + 1, b, b2 :: r2 =>
    if cont2Ok b b2 then (utf8DecodeF fuel r2).map (fun s => char2 b b2 :: s) else none
  | _ + 1, _, [] => none

/-- A three-byte UTF-8 sequence after its lead byte. -/
def utf8Three : Nat → Nat → List Nat → Option (List Char)
  | 0, _, _ => none
  | fuel + 1, b, b2 :: b3 :: r3 =>
    if cont3Ok b b2 b3 then (utf8DecodeF fuel r3).map (fun s => char3 b b2 b3 :: s) else none
  | _ + 1, _, _ => none

/-- A four-byte UTF-8 sequence after its lead byte. -/
def utf8Four : Nat → Nat → List Nat → Option (List Char)
  | 0, _, _ => none
  | fuel + 1, b, b2 :: b3 :: b4 :: r4 =>
    if cont4Ok b b2 b3 b4 then (utf8DecodeF fuel r4).map (fun s => char4 b b2 b3 b4 :: s)
    else none
  | _ + 1, _, _ => none

end

/-- `bytes.decode()`: strict UTF-8 decoding; `none` models the
`UnicodeDecodeError` raised on malformed input. -/
def utf8Decode (bs : List Nat) : Option (List Char) := utf8DecodeF (bs.length + 1) bs

/-! ## Base64 (`base64.urlsafe_b64encode(..).rstrip(b"=")`, `base64.b64decode`,
`base64.urlsafe_b64decode`) -/

/-- Digit of the URL-safe base64 alphabet (`A-Z a-z 0-9 - _`). -/
def b64urlDigit (n : Nat) : Char :=
  if n < 26 then Char.ofNat (65 + n)
  else if n < 52 then Char.ofNat (97 + (n - 26))
  else if n < 62 then Char.ofNat (48 + (n - 52))
  else if n = 62 then '-'
  else '_'

/-- Digit of the standard base64 alphabet (`A-Z a-z 0-9 + /`). -/
def b64stdDigit (n : Nat) : Char :=
  if n < 26 then Char.ofNat (65 + n)
  else if n < 52 then Char.ofNat (97 + (n - 26))
  else if n < 62 then Char.ofNat (48 + (n - 52))
  else if n = 62 then '+'
  else '/'

/-- The digit value a character carries through `base64.urlsafe_b64decode`:
that function translates `-` to `+` and `_` to `/` and then decodes with the
standard alphabet, so `-` and a literal `+` are both 62, `_` and a literal
`/` both 63. -/
def b64urlIndex (c : Char) : Option Nat :=
  if 'A' ≤ c ∧ c ≤ 'Z' then some (c.toNat - 65)
  else if 'a' ≤ c ∧ c ≤ 'z' then some (26 + (c.toNat - 97))
  else if '0' ≤ c ∧ c ≤ '9' then some (52 + (c.toNat - 48))
  else if c = '-' then some 62
  else if c = '_' then some 63
  else if c = '+' then some 62
  else if c = '/' then some 63
  else none

/-- Index of a character in the standard base64 alphabet, if any. -/
def b64stdIndex (c : Char) : Option Nat :=
  if 'A' ≤ c ∧ c ≤ 'Z' then some (c.toNat - 65)
  else if 'a' ≤ c ∧ c ≤ 'z' then some (26 + (c.toNat - 97))
  else if '0' ≤ c ∧ c ≤ '9' then some (52 + (c.toNat - 48))
  else if c = '+' then some 62
  else if c = '/' then some 63
  else none

/-- Unpadded base64 of a byte string with a given digit function: the encoding
loop shared by `_b64url` (URL-safe alphabet, `=` already stripped) and
`base64.b64encode` (standard alphabet, padding added separately). -/
def b64Chars (digit : Nat → Char) : List Nat → List Char
  | b1 :: b2 :: b3 :: rest =>
    digit (b1 / 4) :: digit (b1 % 4 * 16 + b2 / 16) ::
      digit (b2 % 16 * 4 + b3 / 64) :: digit (b3 % 64) :: b64Chars digit rest
  | [b1, b2] => [digit (b1 / 4), digit (b1 % 4 * 16 + b2 / 16), digit (b2 % 16 * 4)]
  | [b1] => [digit (b1 / 4), digit (b1 % 4 * 16)]
  | [] => []

/-- `base64.urlsafe_b64encode(data).rstrip(b"=")` decoded to text: the body of
`_b64url` in `src/main.py` (lines 28-29) before the signature is attached. -/
def b64url (data : List Nat) : List Char := b64Chars b64urlDigit data

/-- `base64.b64encode(data).decode()`: standard alphabet, `=`-padded to a
multiple of four characters. -/
def b64stdPadded (data : List Nat) : List Char :=
  b64Chars b64stdDigit data ++ List.replicate ((3 - data.length % 3) % 3) '='

/-- The decoding loop of CPython's `binascii.a2b_base64` in its default
non-strict mode, parameterised by the alphabet: characters outside the
alphabet are discarded; a `=` is ignored while fewer than two data characters
of the current quad have been seen, and ends the decode once enough padding
has accumulated to complete the quad; input ending mid-quad is an error
(`none`).  State: `qp` is the position within the current quad, `lc` the
pending bits, `pads` the count of adjacent padding characters seen. -/
def a2bBase64 (index : Char → Option Nat) : List Char → Nat → Nat → Nat → Option (List Nat)
  | [], 0, _, _ => some []
  | [], _ + 1, _, _ => none
  | c :: t, qp, lc, pads =>
    if c = '=' then
      if 2 ≤ qp ∧ 4 ≤ qp + (pads + 1) then some []
      else a2bBase64 index t qp lc (if 2 ≤ qp then pads + 1 else pads)
    else
      match index c with
      | none => a2bBase64 index t qp lc pads
      | some v =>
        match qp with
        | 0 => a2bBase64 index t 1 v 0
        | 1 => (a2bBase64 index t 2 (v % 16) 0).map (fun r => (lc * 4 + v / 16) :: r)
        | 2 => (a2bBase64 index t 3 (v % 4) 0).map (fun r => (lc * 16 + v / 4) :: r)
        | _ => (a2bBase64 index t 0 0 0).map (fun r => (lc * 64 + v) :: r)

/-- `base64.b64decode(s)` (standard alphabet, default non-strict mode), as
called on the stored salt by `hash_password`: the string is first
ASCII-encoded (`ValueError` on a non-ASCII character), then decoded
leniently.  `none` models either escaping exception — the `ValueError` or
the `binascii.Error` raised on incorrect padding. -/
def b64stdDecode (s : List Char) : Option (List Nat) :=
  if isAsciiStr s then a2bBase64 b64stdIndex s 0 0 0 else none

/-- `base64.urlsafe_b64decode(p + "==")`, as called on the payload segment by
`verify_token` (line 59 of `src/main.py`): two padding characters are always
appended, the string is ASCII-encoded (`ValueError` on a non-ASCII
character, hence `none`), `-`/`_` are translated to `+`/`/`, and the result
is decoded leniently. -/
def b64urlDecodePadded (p : List Char) : Option (List Nat) :=
  if isAsciiStr p then a2bBase64 b64urlIndex (p ++ ['=', '=']) 0 0 0 else none

/-! ## `str.split(".")` -/

/-- Python `token.split(".")`: split on every dot, keeping empty segments
(`"".split(".") == [""]`). -/
def splitOnDot : List Char → List (List Char)
  | [] => [[]]
  | c :: rest =>
    if c = '.' then [] :: splitOnDot rest
    else
      match splitOnDot rest with
      | [] => [[c]]
      | g :: gs => (c :: g) :: gs

/-! ## SHA-256, HMAC-SHA256, PBKDF2-HMAC-SHA256
(`hashlib.sha256`, `hmac.new(..., hashlib.sha256)`, `hashlib.pbkdf2_hmac`) -/

/-- Truncation to a 32-bit word. -/
def w32 (n : Nat) : Nat := n % 4294967296

/-- Right rotation of a 32-bit word. -/
def rotr32 (k x : Nat) : Nat := w32 ((x >>> k) ||| (x <<< (32 - k)))

/-- SHA-256 message-schedule sigma-0. -/
def ssig0 (x : Nat) : Nat := rotr32 7 x ^^^ rotr32 18 x ^^^ (x >>> 3)

/-- SHA-256 message-schedule sigma-1. -/
def ssig1 (x : Nat) : Nat := rotr32 17 x ^^^ rotr32 19 x ^^^ (x >>> 10)

/-- SHA-256 round function big-sigma-0. -/
def bsig0 (x : Nat) : Nat := rotr32 2 x ^^^ rotr32 13 x ^^^ rotr32 22 x

/-- SHA-256 round function big-sigma-1. -/
def bsig1 (x : Nat) : Nat := rotr32 6 x ^^^ rotr32 11 x ^^^ rotr32 25 x

/-- SHA-256 choice function; complement is xor with the all-ones word. -/
def chf (x y z : Nat) : Nat := (x &&& y) ^^^ ((x ^^^ 4294967295) &&& z)

/-- SHA-256 majority function. -/
def majf (x y z : Nat) : Nat := (x &&& y) ^^^ (x &&& z) ^^^ (y &&& z)

/-- The eight 32-bit words of a SHA-256 state. -/
structure Hash8 where
  a : Nat
  b : Nat
  c : Nat
  d : Nat
  e : Nat
  f : Nat
  g : Nat
  h : Nat

/-- The 64 SHA-256 round constants. -/
def sha256K : List Nat :=
  [1116352408, 1899447441, 3049323471, 3921009573, 961987163, 1508970993,
   2453635748, 2870763221, 3624381080, 310598401, 607225278, 1426881987,
   1925078388, 2162078206, 2614888103, 3248222580, 3835390401, 4022224774,
   264347078, 604807628, 770255983, 1249150122, 1555081692, 1996064986,
   2554220882, 2821834349, 2952996808, 3210313671, 3336571891, 3584528711,
   113926993, 338241895, 666307205, 773529912, 1294757372, 1396182291,
   1695183700, 1986661051, 2177026350, 2456956037, 2730485921, 2820302411,
   3259730800, 3345764771, 3516065817, 3600352804, 4094571909, 275423344,
   430227734, 506948616, 659060556, 883997877, 958139571, 1322822218,
   1537002063, 1747873779, 1955562222, 2024104815, 2227730452, 2361852424,
   2428436474, 2756734187, 3204031479, 3329325298]

/-- The SHA-256 initial state. -/
def sha256H0 : Hash8 :=
  ⟨1779033703, 3144134277, 1013904242, 2773480762, 1359893119, 2600822924, 528734635, 1541459225⟩

/-- Extend a 16-word block by the given number of schedule words. -/
def extendW (w : List Nat) : Nat → List Nat
  | 0 => w
  | r + 1 =>
    let t := w.length
    extendW (w ++ [w32 (ssig1 (w.getD (t - 2) 0) + w.getD (t - 7) 0 +
      ssig0 (w.getD (t - 15) 0) + w.getD (t - 16) 0)]) r

/-- One SHA-256 round. -/
def sha256Round (st : Hash8) (k w : Nat) : Hash8 :=
  let t1 := w32 (st.h + bsig1 st.e + chf st.e st.f st.g + k + w)
  let t2 := w32 (bsig0 st.a + majf st.a st.b st.c)
  ⟨w32 (t1 + t2), st.a, st.b, st.c, w32 (st.d + t1), st.e, st.f, st.g⟩

/-- Compress one 16-word block into the state. -/
def compressBlock (st : Hash8) (block : List Nat) : Hash8 :=
  let ws := extendW block 48
  let f := (sha256K.zip ws).foldl (fun s kw => sha256Round s kw.1 kw.2) st
  ⟨w32 (st.a + f.a), w32 (st.b + f.b), w32 (st.c + f.c), w32 (st.d + f.d),
   w32 (st.e + f.e), w32 (st.f + f.f), w32 (st.g + f.g), w32 (st.h + f.h)⟩

/-- Big-endian 32-bit words from bytes (length a multiple of four). -/
def bytesToWords : List Nat → List Nat
  | b1 :: b2 :: b3 :: b4 :: rest =>
    (((b1 * 256 + b2) * 256 + b3) * 256 + b4) :: bytesToWords rest
  | _ => []

/-- The four big-endian bytes of a 32-bit word. -/
def wordBytes (w : Nat) : List Nat := [w / 16777216 % 256, w / 65536 % 256, w / 256 % 256, w % 256]

/-- Run the compression function over the padded message, collecting bytes
into 64-byte blocks as they stream past (the padded message length is always
a multiple of 64, so the accumulator is empty at the end). -/
def sha256Run : Hash8 → List Nat → List Nat → Hash8
  | st, _, [] => st
  | st, acc, b :: rest =>
    if acc.length = 63 then sha256Run (compressBlock st (bytesToWords (acc ++ [b]))) [] rest
    else sha256Run st (acc ++ [b]) rest

/-- Big-endian eight-byte encoding of the message bit length. -/
def beBytes8 (n : Nat) : List Nat :=
  [n / 72057594037927936 % 256, n / 281474976710656 % 256, n / 1099511627776 % 256,
   n / 4294967296 % 256, n / 16777216 % 256, n / 65536 % 256, n / 256 % 256, n % 256]

/-- SHA-256 padding: `0x80`, zeros to 56 mod 64, then the 64-bit bit length. -/
def sha256Pad (msg : List Nat) : List Nat :=
  msg ++ 128 :: List.replicate ((119 - msg.length % 64) % 64) 0 ++ beBytes8 (8 * msg.length)

/-- `hashlib.sha256(msg).digest()`: the 32-byte SHA-256 digest. -/
def sha256 (msg : List Nat) : List Nat :=
  let st := sha256Run sha256H0 [] (sha256Pad msg)
  wordBytes st.a ++ wordBytes st.b ++ wordBytes st.c ++ wordBytes st.d ++
    wordBytes st.e ++ wordBytes st.f ++ wordBytes st.g ++ wordBytes st.h

/-- `hmac.new(key, msg, hashlib.sha256).digest()` (block size 64). -/
def hmacSha256 (key msg : List Nat) : List Nat :=
  let k1 := if 64 < key.length then sha256 key else key
  let k := k1 ++ List.replicate (64 - k1.length) 0
  sha256 (k.map (fun b => b ^^^ 92) ++ sha256 (k.map (fun b => b ^^^ 54) ++ msg))

/-- The xor-accumulation loop of one PBKDF2 block: `n` further HMAC
iterations after the first. -/
def pbkdf2Iter (pw : List Nat) : List Nat → List Nat → Nat → List Nat
  | _, acc, 0 => acc
  | u, acc, n + 1 =>
    let u' := hmacSha256 pw u
    pbkdf2Iter pw u' (List.zipWith (fun a b => a ^^^ b) acc u') n

/-- `hashlib.pbkdf2_hmac("sha256", pw, salt, iters)` with the default output
length (one 32-byte block, so only block index 1 is ever derived). -/
def pbkdf2Sha256 (pw salt : List Nat) (iters : Nat) : List Nat :=
  match iters with
  | 0 => []
  | n + 1 =>
    let u1 := hmacSha256 pw (salt ++ [0, 0, 0, 1])
    pbkdf2Iter pw u1 u1 n

/-! ## Python floats (IEEE-754 binary64) -/

/-- A Python `float`: an IEEE-754 binary64 value.  A finite double is
carried as its exact value, a dyadic rational; the sign of a zero is
dropped, as no behaviour modelled here distinguishes `-0.0` from `0.0`. -/
inductive PyFloat where
  | finite (q : ℚ)
  | inf
  | neginf
  | nan
deriving DecidableEq

/-- A Python number, as the comparison on line 60 receives it. -/
inductive PyNum where
  | int (n : Int)
  | float (x : PyFloat)
deriving DecidableEq

/-- Python `v < t` for a number `v` and an integral instant `t`: exact value
comparison; `nan` is not less than anything. -/
def PyNum.ltInt : PyNum → Int → Bool
  | .int n, t => n < t
  | .float (.finite q), t => q < (t : ℚ)
  | .float .inf, _ => false
  | .float .neginf, _ => true
  | .float .nan, _ => false

/-- `num / den` rounded to the nearest integer, ties to even (the rounding
step of IEEE-754 round-to-nearest). -/
def divNearestEven (num den : Nat) : Nat :=
  let q := num / den
  let r := num % den
  if den < 2 * r then q + 1
  else if 2 * r < den then q
  else if q % 2 = 0 then q else q + 1

/-- `⌊log2 (num / den)⌋` for positive `num` and `den`. -/
def ratLog2 (num den : Nat) : Int :=
  let e : Int := (Nat.log2 num : Int) - (Nat.log2 den : Int)
  if (if 0 ≤ e then den * 2 ^ e.toNat ≤ num else den ≤ num * 2 ^ (-e).toNat)
  then e else e - 1

/-- The binary64 double nearest to `D * 10 ^ E` (`D ≥ 1`), as CPython's
correctly rounded `float(numstr)` computes it: round to nearest, ties to
even; rounding to `2 ^ 1024` or beyond overflows to `inf`, and a value
below half the least subnormal rounds to zero.  The two coarse guards only
bound the arithmetic: a decimal of magnitude `10 ^ 309` or more always
overflows, one below `10 ^ (-324)` always rounds to zero. -/
def doubleOfPosDecimal (D : Nat) (E : Int) : PyFloat :=
  let L : Int := (Nat.log 10 D : Int) + 1
  if 310 ≤ E + L then .inf
  else if E + L ≤ -324 then .finite 0
  else
    let num := if 0 ≤ E then D * 10 ^ E.toNat else D
    let den := if 0 ≤ E then 1 else 10 ^ (-E).toNat
    let e := ratLog2 num den
    let s : Int := if e < -1022 then 1074 else 52 - e
    let m := if 0 ≤ s then divNearestEven (num * 2 ^ s.toNat) den
             else divNearestEven num (den * 2 ^ (-s).toNat)
    if 2 ^ (1024 + s).toNat ≤ m then .inf
    else .finite ((m : ℚ) * (2 : ℚ) ^ (-s))

/-- `float(numstr)` of a signed decimal `±D * 10 ^ E`. -/
def doubleOfDecimal (neg : Bool) (D : Nat) (E : Int) : PyFloat :=
  if D = 0 then .finite 0
  else
    match doubleOfPosDecimal D E with
    | .finite q => .finite (if neg then -q else q)
    | .inf => if neg then .neginf else .inf
    | x => x

/-! ## JSON values, `json.dumps`, `json.loads` -/

/-- JSON values as Python's `json` module handles them. -/
inductive Json where
  | str (s : List Char)
  | int (n : Int)
  | float (x : PyFloat)
  | bool (b : Bool)
  | null
  | arr (items : List Json)
  | obj (members : List (List Char × Json))

/-- Decimal digit character. -/
def digitChar (n : Nat) : Char := Char.ofNat (48 + n)

/-- Decimal digits of a natural number below `10 ^ fuel`, most significant
first (the fuel only bounds the digit count; `natToChars` always supplies
enough). -/
def natToCharsF : Nat → Nat → List Char
  | 0, _ => []
  | fuel + 1, n =>
    if n < 10 then [digitChar n]
    else natToCharsF fuel (n / 10) ++ [digitChar (n % 10)]

/-- Decimal digits of a natural number, most significant first. -/
def natToChars (n : Nat) : List Char := natToCharsF (n + 1) n

/-- Python `repr` of an int, as `json.dumps` emits numbers. -/
def intToChars (n : Int) : List Char :=
  if n < 0 then '-' :: natToChars (-n).toNat else natToChars n.toNat

/-- `⌊log10 (num / den)⌋` for positive `num` and `den`. -/
def ratLog10 (num den : Nat) : Int :=
  let e : Int := (Nat.log 10 num : Int) - (Nat.log 10 den : Int)
  if (if 0 ≤ e then den * 10 ^ e.toNat ≤ num else den ≤ num * 10 ^ (-e).toNat)
  then e else e - 1

/-- A positive rational rounded to `p ≥ 1` significant decimal digits (ties
to even): the digit block and the decimal exponent of its leading digit. -/
def sigRound (q : ℚ) (p : Nat) : Nat × Int :=
  let ex := ratLog10 q.num.toNat q.den
  let k : Int := ex - p + 1
  let D := if 0 ≤ k then divNearestEven q.num.toNat (q.den * 10 ^ k.toNat)
           else divNearestEven (q.num.toNat * 10 ^ (-k).toNat) q.den
  if D = 10 ^ p then (10 ^ (p - 1), ex + 1) else (D, ex)

/-- The shortest digit block (tried at 1 to 17 significant digits) whose
correctly rounded read-back is exactly the double `q` — how CPython's
`repr` picks its digits.  17 digits always round-trip a double, so the
last step of the recursion bound is an unconditional fallback. -/
def shortestDigitsAux (q : ℚ) (p fuel : Nat) : Nat × Int × Nat :=
  match fuel with
  | 0 => ((sigRound q 17).1, (sigRound q 17).2, 17)
  | fuel + 1 =>
    let dr := sigRound q p
    if doubleOfPosDecimal dr.1 (dr.2 - p + 1) = PyFloat.finite q then (dr.1, dr.2, p)
    else shortestDigitsAux q (p + 1) fuel

/-- The shortest round-tripping digits of a positive double: digit block,
leading-digit decimal exponent, digit count. -/
def shortestDigits (q : ℚ) : Nat × Int × Nat := shortestDigitsAux q 1 17

/-- `float.__repr__` of a positive finite double: the shortest
round-tripping digits, laid out in fixed notation when the leading-digit
exponent is in `[-4, 16)` and in scientific notation (explicit sign, at
least two exponent digits) otherwise. -/
def posFloatRepr (q : ℚ) : List Char :=
  let dep := shortestDigits q
  let ds := natToChars dep.1
  let ex := dep.2.1
  let p := dep.2.2
  if -4 ≤ ex ∧ ex < 16 then
    if 0 ≤ ex then
      if (p : Int) ≤ ex + 1 then
        ds ++ List.replicate (ex + 1 - (p : Int)).toNat '0' ++ cs ".0"
      else ds.take (ex.toNat + 1) ++ '.' :: ds.drop (ex.toNat + 1)
    else cs "0." ++ List.replicate ((-ex).toNat - 1) '0' ++ ds
  else
    (if p = 1 then ds else ds.take 1 ++ '.' :: ds.drop 1) ++
      'e' :: (if ex < 0 then '-' else '+') ::
        (let ea := natToChars (if ex < 0 then (-ex).toNat else ex.toNat)
         if ea.length < 2 then '0' :: ea else ea)

/-- `float.__repr__`, as `json.dumps` renders a float (`allow_nan` defaults
to true, so the non-finite values render as the Python constant names). -/
def pyFloatRepr : PyFloat → List Char
  | .finite q =>
    if q = 0 then cs "0.0"
    else if q < 0 then '-' :: posFloatRepr (-q)
    else posFloatRepr q
  | .inf => cs "Infinity"
  | .neginf => cs "-Infinity"
  | .nan => cs "NaN"

/-- Lower-case hexadecimal digit character. -/
def hexDigitChar (n : Nat) : Char :=
  if n < 10 then Char.ofNat (48 + n) else Char.ofNat (87 + n)

/-- Four lower-case hex digits, as Python's `json` emits in a `\u` escape. -/
def hex4 (n : Nat) : List Char :=
  [hexDigitChar (n / 4096 % 16), hexDigitChar (n / 256 % 16),
   hexDigitChar (n / 16 % 16), hexDigitChar (n % 16)]

/-- A `\uXXXX` escape. -/
def uEsc (n : Nat) : List Char := '\\' :: 'u' :: hex4 n

/-- `json.dumps` escaping of one character with the default
`ensure_ascii=True`: `"` and `\` and the five shorthand control characters
get two-character escapes, all other characters outside `0x20..0x7e` get
`\uXXXX` escapes (a surrogate pair above `0xFFFF`), the rest are literal. -/
def escChar (c : Char) : List Char :=
  if c = '"' then ['\\', '"']
  else if c = '\\' then ['\\', '\\']
  else if c = Char.ofNat 8 then ['\\', 'b']
  else if c = Char.ofNat 12 then ['\\', 'f']
  else if c = '\n' then ['\\', 'n']
  else if c = '\r' then ['\\', 'r']
  else if c = '\t' then ['\\', 't']
  else if c.toNat < 32 ∨ (127 ≤ c.toNat ∧ c.toNat < 65536) then uEsc c.toNat
  else if 65536 ≤ c.toNat then
    uEsc (55296 + (c.toNat - 65536) / 1024) ++ uEsc (56320 + (c.toNat - 65536) % 1024)
  else [c]

/-- `json.dumps` escaping of a whole string (without the quotes). -/
def escStr (s : List Char) : List Char := s.flatMap escChar

/-- A dumped JSON string: quotes around the escaped content. -/
def jstr (s : List Char) : List Char := '"' :: escStr s ++ ['"']

/-- `", ".join`-style interleaving used by `json.dumps` for both object
members and array items (default separators `", "` and `": "`). -/
def joinComma : List (List Char) → List Char
  | [] => []
  | [x] => x
  | x :: xs => x ++ ',' :: ' ' :: joinComma xs

mutual

/-- `json.dumps(v)` with default arguments: `ensure_ascii=True`, separators
`(", ", ": ")`, no key sorting. -/
def jsonDumps : Json → List Char
  | .str s => jstr s
  | .int n => intToChars n
  | .float x => pyFloatRepr x
  | .bool b => if b then cs "true" else cs "false"
  | .null => cs "null"
  | .arr items => '[' :: joinComma (dumpsItems items) ++ [']']
  | .obj ms => '{' :: joinComma (dumpsMembers ms) ++ ['}']

/-- The dumped items of a JSON array. -/
def dumpsItems : List Json → List (List Char)
  | [] => []
  | v :: vs => jsonDumps v :: dumpsItems vs

/-- The dumped `"key": value` members of a JSON object. -/
def dumpsMembers : List (List Char × Json) → List (List Char)
  | [] => []
  | (k, v) :: ms => (jstr k ++ ':' :: ' ' :: jsonDumps v) :: dumpsMembers ms

end

/-- JSON whitespace, as skipped by Python's scanner. -/
def isWs (c : Char) : Bool := c == ' ' || c == '\t' || c == '\n' || c == '\r'

/-- Drop leading JSON whitespace. -/
def skipWs : List Char → List Char
  | [] => []
  | c :: rest => if isWs c then skipWs rest else c :: rest

/-- Value of a hexadecimal digit (both cases), if any. -/
def hexVal? (c : Char) : Option Nat :=
  if '0' ≤ c ∧ c ≤ '9' then some (c.toNat - 48)
  else if 'a' ≤ c ∧ c ≤ 'f' then some (c.toNat - 87)
  else if 'A' ≤ c ∧ c ≤ 'F' then some (c.toNat - 55)
  else none

/-- Value of four hexadecimal digits, if all are digits. -/
def hex4? (a b c d : Char) : Option Nat :=
  match hexVal? a, hexVal? b, hexVal? c, hexVal? d with
  | some x, some y, some z, some w => some (((x * 16 + y) * 16 + z) * 16 + w)
  | _, _, _, _ => none

/-- The character named by a two-character JSON escape, if the escape is
recognised. -/
def escVal? (c : Char) : Option Char :=
  if c = '"' then some '"'
  else if c = '\\' then some '\\'
  else if c = '/' then some '/'
  else if c = 'b' then some (Char.ofNat 8)
  else if c = 'f' then some (Char.ofNat 12)
  else if c = 'n' then some '\n'
  else if c = 'r' then some '\r'
  else if c = 't' then some '\t'
  else none

/-- Exactly four hexadecimal digits off the front of the input. -/
def hexQuad? : List Char → Option (Nat × List Char)
  | a :: b :: c :: d :: r => (hex4? a b c d).map (fun v => (v, r))
  | _ => none

/-- The low-surrogate continuation of a `\uXXXX` high surrogate: another
`\uXXXX` whose value lies in the low-surrogate range, combined into one
scalar value.  A lone surrogate — which Python would keep as an unpairable
code unit, not representable as a Lean `Char` — is mapped to failure (see
the module docstring). -/
def jescPair (v : Nat) : List Char → Option (Char × List Char)
  | '\\' :: 'u' :: r3 =>
    (hexQuad? r3).bind (fun wr =>
      if 56320 ≤ wr.1 ∧ wr.1 ≤ 57343 then
        some (Char.ofNat (65536 + (v - 55296) * 1024 + (wr.1 - 56320)), wr.2)
      else none)
  | _ => none

/-- A `\uXXXX` escape after the `\u`: four hex digits; a high surrogate
must be followed by a low surrogate (combined), a lone low surrogate fails
(see `jescPair`). -/
def jescU (r2 : List Char) : Option (Char × List Char) :=
  (hexQuad? r2).bind (fun vr =>
    if 55296 ≤ vr.1 ∧ vr.1 ≤ 56319 then jescPair vr.1 vr.2
    else if 56320 ≤ vr.1 ∧ vr.1 ≤ 57343 then none
    else some (Char.ofNat vr.1, vr.2))

/-- One JSON string escape after the backslash: either `u` and a `\uXXXX`
escape, or a recognised two-character escape. -/
def jescStep : List Char → Option (Char × List Char)
  | [] => none
  | e :: r2 => if e = 'u' then jescU r2 else (escVal? e).map (fun ch => (ch, r2))

/-- Fuelled loop of Python's `scanstring` (see `parseJStr`). -/
def parseJStrF : Nat → List Char → Option (List Char × List Char)
  | 0, _ => none
  | fuel + 1, input =>
    match input with
    | [] => none
    | c :: rest =>
      if c = '"' then some ([], rest)
      else if c = '\\' then
        (jescStep rest).bind (fun er =>
          (parseJStrF fuel er.2).map (fun pr => (er.1 :: pr.1, pr.2)))
      else if c.toNat < 32 then none
      else (parseJStrF fuel rest).map (fun pr => (c :: pr.1, pr.2))

/-- Python's `scanstring` after the opening quote (strict mode, the
default): literal characters up to the closing quote, raw control characters
rejected, two-character escapes and `\uXXXX` escapes decoded (see
`jescStep`).  Returns the string and the unconsumed tail. -/
def parseJStr (input : List Char) : Option (List Char × List Char) :=
  parseJStrF (input.length + 1) input

/-- Decimal digit character test. -/
def isDigit (c : Char) : Bool := decide ('0' ≤ c ∧ c ≤ '9')

/-- Consume a run of decimal digits into an accumulator. -/
def digitsAcc : Nat → List Char → Nat × List Char
  | acc, [] => (acc, [])
  | acc, c :: rest =>
    if isDigit c then digitsAcc (acc * 10 + (c.toNat - 48)) rest else (acc, c :: rest)

/-- The unsigned integer part of a JSON number: `0`, or a nonzero digit
followed by a digit run (a leading `0` ends the number at once, as in
Python's number grammar). -/
def parsePosNum : List Char → Option (Nat × List Char)
  | [] => none
  | c :: rest =>
    if c = '0' then some (0, rest)
    else if isDigit c then some (digitsAcc (c.toNat - 48) rest)
    else none

/-- Consume a run of decimal digits, returning the digit characters and the
tail. -/
def digitRun : List Char → List Char × List Char
  | [] => ([], [])
  | c :: rest =>
    if isDigit c then
      let pr := digitRun rest
      (c :: pr.1, pr.2)
    else ([], c :: rest)

/-- The value of a block of decimal digit characters. -/
def digitsVal (ds : List Char) : Nat := ds.foldl (fun a c => a * 10 + (c.toNat - 48)) 0

/-- The fraction group of Python's number regex: `.` followed by at least
one digit.  Returns the fraction digits and the tail. -/
def parseFrac? : List Char → Option (List Char × List Char)
  | '.' :: t =>
    match t with
    | c :: r => if isDigit c then some (digitRun (c :: r)) else none
    | [] => none
  | _ => none

/-- The exponent group of Python's number regex: `e`/`E`, an optional sign,
at least one digit. -/
def parseExpPart : List Char → Option (Int × List Char)
  | e :: t =>
    if e = 'e' ∨ e = 'E' then
      match t with
      | '+' :: c :: r =>
        if isDigit c then
          let pr := digitRun (c :: r)
          some ((digitsVal pr.1 : Int), pr.2)
        else none
      | '-' :: c :: r =>
        if isDigit c then
          let pr := digitRun (c :: r)
          some (-(digitsVal pr.1 : Int), pr.2)
        else none
      | c :: r =>
        if isDigit c then
          let pr := digitRun (c :: r)
          some ((digitsVal pr.1 : Int), pr.2)
        else none
      | [] => none
    else none
  | [] => none

/-- The float continuation of a number: an optional fraction then an
optional exponent.  `none` when neither group is present — the number then
stays an int, exactly Python's int/float split of a number match. -/
def parseFracExp (input : List Char) : Option (List Char × Int × List Char) :=
  match parseFrac? input with
  | some fr =>
    match parseExpPart fr.2 with
    | some er => some (fr.1, er.1, er.2)
    | none => some (fr.1, 0, fr.2)
  | none =>
    match parseExpPart input with
    | some er => some ([], er.1, er.2)
    | none => none

/-- The digits of a JSON number after its optional minus sign: the integer
part, then — when a fraction or exponent group follows — the correctly
rounded `float` of the full literal, else the int. -/
def parseNumTail (neg : Bool) (input : List Char) : Option (Json × List Char) :=
  (parsePosNum input).bind (fun pr =>
    match parseFracExp pr.2 with
    | none => some (Json.int (if neg then -(pr.1 : Int) else (pr.1 : Int)), pr.2)
    | some fer =>
      some (Json.float (doubleOfDecimal neg (pr.1 * 10 ^ fer.1.length + digitsVal fer.1)
        (fer.2.1 - (fer.1.length : Int))), fer.2.2))

/-- A JSON number, as Python's scanner regex matches and converts it:
an optional minus sign, `0` or a nonzero-led digit run, then the optional
fraction and exponent groups. -/
def parseNum : List Char → Option (Json × List Char)
  | [] => none
  | c :: rest => if c = '-' then parseNumTail true rest else parseNumTail false (c :: rest)

/-- Drop an expected literal tail (the `rue` of `true`, ...). -/
def stripLit (lit input : List Char) : Option (List Char) :=
  if input.take lit.length = lit then some (input.drop lit.length) else none

/-- Whitespace then a colon, as between a key and its value. -/
def expectColon (r : List Char) : Option (List Char) :=
  match skipWs r with
  | ':' :: r2 => some r2
  | _ => none

mutual

/-- One JSON value at the head of the input (no leading whitespace), as
Python's scanner reads it (including the non-standard `NaN`, `Infinity` and
`-Infinity` constants it accepts by default); returns the value and the
unconsumed tail.  The fuel strictly decreases on every call in this block;
`jsonLoads` supplies more than any input can consume. -/
def parseVal : Nat → List Char → Option (Json × List Char)
  | 0, _ => none
  | fuel + 1, input =>
    match input with
    | [] => none
    | c :: rest =>
      if c = '"' then (parseJStr rest).map (fun pr => (Json.str pr.1, pr.2))
      else if c = '{' then
        (parseMembers fuel true (skipWs rest)).map (fun pr => (Json.obj pr.1, pr.2))
      else if c = '[' then
        (parseItems fuel true (skipWs rest)).map (fun pr => (Json.arr pr.1, pr.2))
      else if c = 't' then (stripLit (cs "rue") rest).map (fun r => (Json.bool true, r))
      else if c = 'f' then (stripLit (cs "alse") rest).map (fun r => (Json.bool false, r))
      else if c = 'n' then (stripLit (cs "ull") rest).map (fun r => (Json.null, r))
      else if c = 'N' then (stripLit (cs "aN") rest).map (fun r => (Json.float .nan, r))
      else if c = 'I' then
        (stripLit (cs "nfinity") rest).map (fun r => (Json.float .inf, r))
      else if c = '-' || isDigit c then
        match parseNum (c :: rest) with
        | some vr => some vr
        | none =>
          if c = '-' then
            (stripLit (cs "Infinity") rest).map (fun r => (Json.float .neginf, r))
          else none
      else none

/-- The member list of a JSON object, whitespace before the next key already
skipped; `first` is true only before the first key, where a closing brace
still yields the empty object. -/
def parseMembers : Nat → Bool → List Char → Option (List (List Char × Json) × List Char)
  | 0, _, _ => none
  | fuel + 1, first, input =>
    match input with
    | [] => none
    | c :: rest =>
      if c = '}' then if first then some ([], rest) else none
      else if c = '"' then
        (parseJStr rest).bind (fun kr =>
          (expectColon kr.2).bind (fun r2 =>
            (parseVal fuel (skipWs r2)).bind (fun vr =>
              membersClose fuel kr.1 vr.1 (skipWs vr.2))))
      else none

/-- After one `key: value` member: close the object or continue past a
comma. -/
def membersClose : Nat → List Char → Json → List Char → Option (List (List Char × Json) × List Char)
  | 0, _, _, _ => none
  | fuel + 1, k, v, input =>
    match input with
    | '}' :: r3 => some ([(k, v)], r3)
    | ',' :: r3 => (parseMembers fuel false (skipWs r3)).map (fun mr => ((k, v) :: mr.1, mr.2))
    | _ => none

/-- The item list of a JSON array, whitespace before the next item already
skipped; `first` is true only before the first item, where a closing bracket
still yields the empty array. -/
def parseItems : Nat → Bool → List Char → Option (List Json × List Char)
  | 0, _, _ => none
  | fuel + 1, first, input =>
    match input with
    | [] => none
    | c :: rest =>
      if c = ']' then if first then some ([], rest) else none
      else
        (parseVal fuel (c :: rest)).bind (fun vr => itemsClose fuel vr.1 (skipWs vr.2))

/-- After one array item: close the array or continue past a comma. -/
def itemsClose : Nat → Json → List Char → Option (List Json × List Char)
  | 0, _, _ => none
  | fuel + 1, v, input =>
    match input with
    | ']' :: r2 => some ([v], r2)
    | ',' :: r2 => (parseItems fuel false (skipWs r2)).map (fun ir => (v :: ir.1, ir.2))
    | _ => none

end

/-- `json.loads(txt)`: skip leading whitespace, read one value, require only
whitespace to remain.  (A note on `]` in a non-first item position: Python
rejects it through its value scanner; the model rejects it directly —
the same outcome.) -/
def jsonLoads (txt : List Char) : Option Json :=
  match parseVal (2 * txt.length + 2) (skipWs txt) with
  | some (v, rest) => if skipWs rest = [] then some v else none
  | none => none

/-! ## The data model (`src/schemas.py`) -/

/-- The closed role set `Role = Literal["provider", "requester"]`
(`src/schemas.py`, line 94). -/
inductive Role where
  | provider
  | requester
deriving DecidableEq

/-- The string a role is carried as inside a token payload. -/
def Role.toChars : Role → List Char
  | .provider => cs "provider"
  | .requester => cs "requester"

/-- Pydantic validation of the `role` field against the `Role` literal type:
only the two exact strings are accepted. -/
def roleFromChars? (s : List Char) : Option Role :=
  if s = cs "provider" then some .provider
  else if s = cs "requester" then some .requester
  else none

/-- `AuthUser` (`src/schemas.py`, lines 106-110): the authenticated
principal.  The `role` field being the closed inductive type mirrors the
`Literal` annotation; a pydantic-validated `email` is expressed by the
`emailOk` predicate in the theorems that need it. -/
structure AuthUser where
  id : List Char
  name : List Char
  email : List Char
  role : Role
deriving DecidableEq

/-! ## Python dict access over parsed JSON objects -/

/-- `dict(pairs)[k]` for the member list of a parsed JSON object: with
duplicate keys the last occurrence wins, as when Python builds the dict. -/
def pyDictGet? (ms : List (List Char × Json)) (k : List Char) : Option Json :=
  (ms.reverse.find? (fun kv => kv.1 == k)).map (fun kv => kv.2)

/-- `payload.get(k, d)`: lookup with a default. -/
def pyDictGetD (ms : List (List Char × Json)) (k : List Char) (d : Json) : Json :=
  (pyDictGet? ms k).getD d

/-- The left operand of `payload.get("exp", 0) < time.time()` (line 60):
ints and floats are numbers, bools compare as their int values, anything
else raises `TypeError` (`none`). -/
def jsonNumVal? : Json → Option PyNum
  | .int n => some (.int n)
  | .float x => some (.float x)
  | .bool b => some (.int (if b then 1 else 0))
  | _ => none

/-! ## The authentication core (`src/main.py`, lines 24-76) -/

/-- `TOKEN_EXP_SECONDS = 60 * 60 * 24 * 7` (line 25). -/
def TOKEN_EXP_SECONDS : Int := 60 * 60 * 24 * 7

/-- `_sign(data)` (lines 32-33): URL-safe unpadded base64 of the HMAC-SHA256
digest of the UTF-8 bytes of `data` under the UTF-8 bytes of the
process-wide secret, here an explicit parameter. -/
def sign (secretKey data : List Char) : List Char :=
  b64url (hmacSha256 (utf8Encode secretKey) (utf8Encode data))

/-- The header dict `{"alg": "HS256", "typ": "JWT"}` built by `create_token`
(line 37), in its Python insertion order. -/
def headerObj : Json :=
  .obj [(cs "alg", .str (cs "HS256")), (cs "typ", .str (cs "JWT"))]

/-- The payload dict built by `create_token` (lines 38-44), in its Python
insertion order, with the role already rendered to its string. -/
def payloadObj (idv namev emailv rolev : List Char) (exp : Int) : Json :=
  .obj [(cs "id", .str idv), (cs "name", .str namev), (cs "email", .str emailv),
        (cs "role", .str rolev), (cs "exp", .int exp)]

/-- `create_token(user)` (lines 36-48).  `now` is `int(time.time())` at
issuance. -/
def create_token (secretKey : List Char) (now : Int) (user : AuthUser) : List Char :=
  let h := b64url (utf8Encode (jsonDumps headerObj))
  let p := b64url (utf8Encode (jsonDumps
    (payloadObj user.id user.name user.email user.role.toChars (now + TOKEN_EXP_SECONDS))))
  let s := sign secretKey (h ++ '.' :: p)
  h ++ '.' :: p ++ '.' :: s

/-- A correctly signed token over an arbitrary payload value: the shape
`create_token` produces, with the payload dict generalised.  Used to state
properties about well-signed tokens whose payloads `create_token` itself
would never emit. -/
def signedToken (secretKey : List Char) (payload : Json) : List Char :=
  let h := b64url (utf8Encode (jsonDumps headerObj))
  let p := b64url (utf8Encode (jsonDumps payload))
  h ++ '.' :: p ++ '.' :: sign secretKey (h ++ '.' :: p)

/-- The payload-recovery pipeline of `verify_token` (line 59):
`json.loads(base64.urlsafe_b64decode(p + "==").decode())`, requiring a JSON
object so that the subsequent `payload.get` attribute accesses succeed. -/
def payloadDict? (p : List Char) : Option (List (List Char × Json)) :=
  (b64urlDecodePadded p).bind (fun bytes =>
    (utf8Decode bytes).bind (fun txt =>
      (jsonLoads txt).bind (fun j =>
        match j with
        | .obj ms => some ms
        | _ => none)))

/-- `verify_token(token)` (lines 51-64).  `now` is `time.time()` at
verification; every raised-and-caught exception along the way is `none`:

* wrong part count (line 54) — `none`;
* signature mismatch (line 57) — `none`;
* undecodable or non-object payload (line 59) — `none`;
* `payload.get("exp", 0) < time.time()` (line 60), an exact numeric
  comparison (a float `exp` compares by its double value, `nan` never
  compares less), with a non-number `exp` raising `TypeError` — `none`;
* `AuthUser(...)` (line 62) with a missing field (`KeyError`), a non-string
  field, a role outside the `Role` literal, or an address rejected by
  `EmailStr` — `none`. -/
def verify_token (secretKey : List Char) (now : Int) (emailOk : List Char → Bool)
    (token : List Char) : Option AuthUser :=
  match splitOnDot token with
  | [h, p, s] =>
    if sign secretKey (h ++ '.' :: p) = s then
      (payloadDict? p).bind (fun payload =>
        (jsonNumVal? (pyDictGetD payload (cs "exp") (.int 0))).bind (fun expv =>
          if expv.ltInt now then none
          else
            match pyDictGet? payload (cs "id"), pyDictGet? payload (cs "name"),
                  pyDictGet? payload (cs "email"), pyDictGet? payload (cs "role") with
            | some (.str idv), some (.str namev), some (.str emailv), some (.str rolev) =>
              (roleFromChars? rolev).bind (fun r =>
                if emailOk emailv then some ⟨idv, namev, emailv, r⟩ else none)
            | _, _, _, _ => none))
    else none
  | _ => none

/-- The integer `exp` a verifier would compare against: the payload's `exp`
value (default 0) of the token's middle segment, through the same pipeline
as `verify_token`.  `none` when the token has no well-formed payload or its
`exp` is not an int (the tokens the application issues always carry one). -/
def tokenExp? (token : List Char) : Option Int :=
  match splitOnDot token with
  | [_, p, _] =>
    (payloadDict? p).bind (fun payload =>
      match jsonNumVal? (pyDictGetD payload (cs "exp") (.int 0)) with
      | some (.int n) => some n
      | _ => none)
  | _ => none

/-- Does the third segment equal the recomputed signature over the first two
segments joined by a dot (the check of line 57)? -/
def sigMatches (secretKey token : List Char) : Bool :=
  match splitOnDot token with
  | [h, p, s] => sign secretKey (h ++ '.' :: p) == s
  | _ => false

/-- `hash_password(password, salt)` (lines 67-76) with a stored (string)
salt supplied, as `login` calls it: PBKDF2-HMAC-SHA256, 100000 iterations,
over the UTF-8 password bytes and the base64-decoded salt, the digest
base64-encoded.  `none` models the `binascii.Error` escaping from
`base64.b64decode(salt)` — the function body catches nothing. -/
def hash_password (password : List Char) (salt : List Char) : Option (List Char × List Char) :=
  (b64stdDecode salt).map (fun saltBytes =>
    (b64stdPadded (pbkdf2Sha256 (utf8Encode password) saltBytes 100000), salt))

/-- The password check of `login` (lines 149-151): recompute
`hash_password(password, salt)` and compare to the stored hash with string
equality.  `some true` — proceed; `some false` — 401 "Invalid credentials";
`none` — the recomputation raised and the exception left the handler. -/
def login_password_ok (password storedSalt storedHash : List Char) : Option Bool :=
  (hash_password password storedSalt).map (fun hs => decide (hs.1 = storedHash))

/-! ## Basic lemmas -/

theorem char_toNat_ofNat_valid (n : Nat) (h : n.isValidChar) : (Char.ofNat n).toNat = n := by
  unfold Char.ofNat
  rw [dif_pos h]
  rfl

theorem char_toNat_ofNat_lt (n : Nat) (h : n < 55296) : (Char.ofNat n).toNat = n :=
  char_toNat_ofNat_valid n (Or.inl h)

theorem splitOnDot_ne_nil (l : List Char) : splitOnDot l ≠ [] := by
  induction l with
  | nil => simp [splitOnDot]
  | cons c rest ih =>
    rw [splitOnDot]
    by_cases h : c = '.'
    · simp [h]
    · rw [if_neg h]
      cases hs : splitOnDot rest with
      | nil => simp
      | cons g gs => simp

theorem splitOnDot_append_dot (a b : List Char) (ha : '.' ∉ a) :
    splitOnDot (a ++ '.' :: b) = a :: splitOnDot b := by
  induction a with
  | nil => simp [splitOnDot]
  | cons c t ih =>
    have hc : c ≠ '.' := fun h => ha (h ▸ List.mem_cons_self c t)
    have ht : '.' ∉ t := fun h => ha (List.mem_cons_of_mem _ h)
    rw [List.cons_append, splitOnDot, if_neg hc, ih ht]

theorem splitOnDot_noDot (a : List Char) (ha : '.' ∉ a) : splitOnDot a = [a] := by
  induction a with
  | nil => simp [splitOnDot]
  | cons c t ih =>
    have hc : c ≠ '.' := fun h => ha (h ▸ List.mem_cons_self c t)
    have ht : '.' ∉ t := fun h => ha (List.mem_cons_of_mem _ h)
    rw [splitOnDot, if_neg hc, ih ht]

/-- Splitting the three-segment shape both token builders produce. -/
theorem splitOnDot_three (a b c : List Char)
    (ha : '.' ∉ a) (hb : '.' ∉ b) (hc : '.' ∉ c) :
    splitOnDot (a ++ '.' :: (b ++ '.' :: c)) = [a, b, c] := by
  rw [splitOnDot_append_dot a _ ha, splitOnDot_append_dot b _ hb, splitOnDot_noDot c hc]

theorem two_le_splitOnDot_length (z : List Char) (h : '.' ∈ z) :
    2 ≤ (splitOnDot z).length := by
  induction z with
  | nil => simp at h
  | cons c t ih =>
    rw [splitOnDot]
    by_cases hc : c = '.'
    · rw [if_pos hc]
      have := splitOnDot_ne_nil t
      have : 1 ≤ (splitOnDot t).length := by
        cases hs : splitOnDot t with
        | nil => exact absurd hs (splitOnDot_ne_nil t)
        | cons g gs => simp
      simp only [List.length_cons]
      omega
    · rw [if_neg hc]
      have hmem : '.' ∈ t := by
        rcases List.mem_cons.mp h with h1 | h2
        · exact absurd h1.symm hc
        · exact h2
      cases hs : splitOnDot t with
      | nil => exact absurd hs (splitOnDot_ne_nil t)
      | cons g gs =>
        have := ih hmem
        rw [hs] at this
        simpa using this

/-- The URL-safe alphabet facts used throughout: every digit is ASCII, is
neither `.` nor `=`, and decodes back to its index. -/
theorem b64url_digit_facts : ∀ n < 64, (b64urlDigit n).toNat < 128 ∧
    b64urlDigit n ≠ '.' ∧ b64urlDigit n ≠ '=' ∧ b64urlIndex (b64urlDigit n) = some n := by
  decide

/-- Every character the encoder emits is a digit of an index below 64. -/
theorem mem_b64Chars {digit : Nat → Char} {bs : List Nat} (h : AllBytes bs) :
    ∀ c ∈ b64Chars digit bs, ∃ n, n < 64 ∧ c = digit n := by
  induction bs using b64Chars.induct digit with
  | case1 b1 b2 b3 rest ih =>
    have hb1 : b1 < 256 := h b1 (by simp)
    have hb2 : b2 < 256 := h b2 (by simp)
    have hb3 : b3 < 256 := h b3 (by simp)
    have hrest : AllBytes rest := fun b hb => h b (by simp [hb])
    intro c hc
    simp only [b64Chars, List.mem_cons] at hc
    rcases hc with hc | hc | hc | hc | hc
    · exact ⟨b1 / 4, by omega, hc⟩
    · exact ⟨b1 % 4 * 16 + b2 / 16, by omega, hc⟩
    · exact ⟨b2 % 16 * 4 + b3 / 64, by omega, hc⟩
    · exact ⟨b3 % 64, by omega, hc⟩
    · exact ih hrest c hc
  | case2 b1 b2 =>
    have hb1 : b1 < 256 := h b1 (by simp)
    have hb2 : b2 < 256 := h b2 (by simp)
    intro c hc
    simp only [b64Chars, List.mem_cons, List.not_mem_nil, or_false] at hc
    rcases hc with hc | hc | hc
    · exact ⟨b1 / 4, by omega, hc⟩
    · exact ⟨b1 % 4 * 16 + b2 / 16, by omega, hc⟩
    · exact ⟨b2 % 16 * 4, by omega, hc⟩
  | case3 b1 =>
    have hb1 : b1 < 256 := h b1 (by simp)
    intro c hc
    simp only [b64Chars, List.mem_cons, List.not_mem_nil, or_false] at hc
    rcases hc with hc | hc
    · exact ⟨b1 / 4, by omega, hc⟩
    · exact ⟨b1 % 4 * 16, by omega, hc⟩
  | case4 => intro c hc; simp [b64Chars] at hc

/-- No character of a `_b64url` output is a dot. -/
theorem b64url_noDot {bs : List Nat} (h : AllBytes bs) : '.' ∉ b64url bs := by
  intro hmem
  obtain ⟨n, hn, he⟩ := mem_b64Chars h '.' hmem
  exact (b64url_digit_facts n hn).2.1 he.symm

/-- Every character of a `_b64url` output is ASCII. -/
theorem b64url_ascii {bs : List Nat} (h : AllBytes bs) : AllAscii (b64url bs) := by
  intro c hc
  obtain ⟨n, hn, he⟩ := mem_b64Chars h c hc
  rw [he]
  exact (b64url_digit_facts n hn).1

/-- Base64 decoding step at a data character, quad position 0. -/
theorem a2bBase64_data0 (index : Char → Option Nat) (c : Char) (v : Nat) (t : List Char)
    (lc pads : Nat) (hne : c ≠ '=') (hv : index c = some v) :
    a2bBase64 index (c :: t) 0 lc pads = a2bBase64 index t 1 v 0 := by
  rw [a2bBase64, if_neg hne, hv]

/-- Base64 decoding step at a data character, quad position 1. -/
theorem a2bBase64_data1 (index : Char → Option Nat) (c : Char) (v : Nat) (t : List Char)
    (lc pads : Nat) (hne : c ≠ '=') (hv : index c = some v) :
    a2bBase64 index (c :: t) 1 lc pads =
      (a2bBase64 index t 2 (v % 16) 0).map (fun r => (lc * 4 + v / 16) :: r) := by
  rw [a2bBase64, if_neg hne, hv]

/-- Base64 decoding step at a data character, quad position 2. -/
theorem a2bBase64_data2 (index : Char → Option Nat) (c : Char) (v : Nat) (t : List Char)
    (lc pads : Nat) (hne : c ≠ '=') (hv : index c = some v) :
    a2bBase64 index (c :: t) 2 lc pads =
      (a2bBase64 index t 3 (v % 4) 0).map (fun r => (lc * 16 + v / 4) :: r) := by
  rw [a2bBase64, if_neg hne, hv]

/-- Base64 decoding step at a data character, quad position 3. -/
theorem a2bBase64_data3 (index : Char → Option Nat) (c : Char) (v : Nat) (t : List Char)
    (lc pads : Nat) (hne : c ≠ '=') (hv : index c = some v) :
    a2bBase64 index (c :: t) 3 lc pads =
      (a2bBase64 index t 0 0 0).map (fun r => (lc * 64 + v) :: r) := by
  rw [a2bBase64, if_neg hne, hv]

/-- Base64 decoding step at a padding character. -/
theorem a2bBase64_pad (index : Char → Option Nat) (t : List Char) (qp lc pads : Nat) :
    a2bBase64 index ('=' :: t) qp lc pads =
      if 2 ≤ qp ∧ 4 ≤ qp + (pads + 1) then some []
      else a2bBase64 index t qp lc (if 2 ≤ qp then pads + 1 else pads) := by
  rw [a2bBase64, if_pos rfl]

/-- Decoding inverts encoding: `base64.urlsafe_b64decode` of a `_b64url`
output with `"=="` appended recovers exactly the encoded bytes. -/
theorem isAsciiStr_of_allAscii {s : List Char} (h : AllAscii s) : isAsciiStr s = true :=
  List.all_eq_true.mpr (fun c hc => decide_eq_true (h c hc))

theorem a2bBase64_b64url {bs : List Nat} (h : AllBytes bs) :
    a2bBase64 b64urlIndex (b64Chars b64urlDigit bs ++ ['=', '=']) 0 0 0 = some bs := by
  induction bs using b64Chars.induct b64urlDigit with
  | case1 b1 b2 b3 rest ih =>
    have hb1 : b1 < 256 := h b1 (by simp)
    have hb2 : b2 < 256 := h b2 (by simp)
    have hb3 : b3 < 256 := h b3 (by simp)
    have hrest : AllBytes rest := fun b hb => h b (by simp [hb])
    have e1 := b64url_digit_facts (b1 / 4) (by omega)
    have e2 := b64url_digit_facts (b1 % 4 * 16 + b2 / 16) (by omega)
    have e3 := b64url_digit_facts (b2 % 16 * 4 + b3 / 64) (by omega)
    have e4 := b64url_digit_facts (b3 % 64) (by omega)
    rw [b64Chars]
    simp only [List.cons_append]
    rw [a2bBase64_data0 _ _ _ _ _ _ e1.2.2.1 e1.2.2.2,
        a2bBase64_data1 _ _ _ _ _ _ e2.2.2.1 e2.2.2.2,
        a2bBase64_data2 _ _ _ _ _ _ e3.2.2.1 e3.2.2.2,
        a2bBase64_data3 _ _ _ _ _ _ e4.2.2.1 e4.2.2.2,
        ih hrest]
    simp only [Option.map_some', Option.some.injEq, List.cons.injEq]
    refine ⟨?_, ?_, ?_, trivial⟩ <;> omega
  | case2 b1 b2 =>
    have hb1 : b1 < 256 := h b1 (by simp)
    have hb2 : b2 < 256 := h b2 (by simp)
    have e1 := b64url_digit_facts (b1 / 4) (by omega)
    have e2 := b64url_digit_facts (b1 % 4 * 16 + b2 / 16) (by omega)
    have e3 := b64url_digit_facts (b2 % 16 * 4) (by omega)
    rw [b64Chars]
    simp only [List.cons_append, List.nil_append]
    rw [a2bBase64_data0 _ _ _ _ _ _ e1.2.2.1 e1.2.2.2,
        a2bBase64_data1 _ _ _ _ _ _ e2.2.2.1 e2.2.2.2,
        a2bBase64_data2 _ _ _ _ _ _ e3.2.2.1 e3.2.2.2,
        a2bBase64_pad]
    norm_num
    constructor
    · omega
    · omega
  | case3 b1 =>
    have hb1 : b1 < 256 := h b1 (by simp)
    have e1 := b64url_digit_facts (b1 / 4) (by omega)
    have e2 := b64url_digit_facts (b1 % 4 * 16) (by omega)
    rw [b64Chars]
    simp only [List.cons_append, List.nil_append]
    rw [a2bBase64_data0 _ _ _ _ _ _ e1.2.2.1 e1.2.2.2,
        a2bBase64_data1 _ _ _ _ _ _ e2.2.2.1 e2.2.2.2,
        a2bBase64_pad]
    norm_num
    refine ⟨?_, by omega⟩
    rw [a2bBase64_pad]
    norm_num
  | case4 =>
    rw [b64Chars]
    simp only [List.nil_append]
    rw [a2bBase64_pad]
    norm_num
    rw [a2bBase64_pad]
    norm_num
    rw [a2bBase64]

/-- `base64.urlsafe_b64decode(p + "==")` inverts `_b64url`: the encoding is
ASCII, so the admission test passes, and the lenient decode recovers the
bytes. -/
theorem b64urlDecodePadded_b64url {bs : List Nat} (h : AllBytes bs) :
    b64urlDecodePadded (b64url bs) = some bs := by
  rw [b64urlDecodePadded, if_pos (isAsciiStr_of_allAscii (b64url_ascii h)), b64url]
  exact a2bBase64_b64url h

/-- Character code points are below 0x110000. -/
theorem char_toNat_lt (c : Char) : c.toNat < 1114112 := by
  rcases c.valid with h | ⟨_, h⟩
  · exact Nat.lt_trans h (by norm_num)
  · exact h

/-- UTF-8 encodings are byte strings. -/
theorem utf8Encode_allBytes (s : List Char) : AllBytes (utf8Encode s) := by
  intro b hb
  unfold utf8Encode at hb
  rw [List.mem_flatMap] at hb
  obtain ⟨c, _, hbc⟩ := hb
  have hcv := char_toNat_lt c
  simp only [utf8Char] at hbc
  split_ifs at hbc <;> simp_all <;> omega

/-- An ASCII string UTF-8-encodes to its own code points. -/
theorem utf8Encode_ascii (s : List Char) (h : AllAscii s) :
    utf8Encode s = s.map Char.toNat := by
  induction s with
  | nil => rfl
  | cons c t ih =>
    have hc : c.toNat < 128 := h c (List.mem_cons_self c t)
    have ht : AllAscii t := fun x hx => h x (List.mem_cons_of_mem _ hx)
    unfold utf8Encode at ih ⊢
    rw [List.flatMap_cons, ih ht, List.map_cons]
    simp only [utf8Char]
    rw [if_pos hc]
    rfl

/-- Decoding the code points of an ASCII string recovers it, whatever the
spare fuel. -/
theorem utf8DecodeF_ascii (s : List Char) : ∀ fuel, s.length < fuel → AllAscii s →
    utf8DecodeF fuel (s.map Char.toNat) = some s := by
  induction s with
  | nil =>
    intro fuel hf _
    obtain ⟨f, rfl⟩ : ∃ f, fuel = f + 1 := ⟨fuel - 1, by omega⟩
    rfl
  | cons c t ih =>
    intro fuel hf h
    have hc : c.toNat < 128 := h c (List.mem_cons_self c t)
    have ht : AllAscii t := fun x hx => h x (List.mem_cons_of_mem _ hx)
    obtain ⟨f, rfl⟩ : ∃ f, fuel = f + 1 := ⟨fuel - 1, by omega⟩
    rw [List.map_cons, utf8DecodeF, if_pos hc,
      ih f (by simpa using Nat.lt_of_succ_lt_succ hf) ht, Option.map_some', Char.ofNat_toNat]

/-- `bytes.decode()` inverts `str.encode()` on ASCII strings. -/
theorem utf8Decode_encode_ascii (s : List Char) (h : AllAscii s) :
    utf8Decode (utf8Encode s) = some s := by
  rw [utf8Encode_ascii s h]
  unfold utf8Decode
  exact utf8DecodeF_ascii s _ (by simp) h

/-! ## `json.loads` inverts `json.dumps` on the texts the token code emits -/

theorem hexVal?_hexDigitChar : ∀ d < 16, hexVal? (hexDigitChar d) = some d := by decide

theorem hexQuad?_hex4 (v : Nat) (hv : v < 65536) (r : List Char) :
    hexQuad? (hex4 v ++ r) = some (v, r) := by
  show hexQuad? (hexDigitChar (v / 4096 % 16) :: hexDigitChar (v / 256 % 16) ::
    hexDigitChar (v / 16 % 16) :: hexDigitChar (v % 16) :: r) = some (v, r)
  rw [hexQuad?]
  simp only [hex4?, hexVal?_hexDigitChar (v / 4096 % 16) (by omega),
    hexVal?_hexDigitChar (v / 256 % 16) (by omega),
    hexVal?_hexDigitChar (v / 16 % 16) (by omega),
    hexVal?_hexDigitChar (v % 16) (by omega), Option.map_some', Option.some.injEq,
    Prod.mk.injEq]
  exact ⟨by omega, trivial⟩

theorem jescStep_u (r2 : List Char) : jescStep ('u' :: r2) = jescU r2 := by
  rw [jescStep, if_pos rfl]

theorem jescStep_notu (e : Char) (r2 : List Char) (hu : e ≠ 'u') :
    jescStep (e :: r2) = (escVal? e).map (fun ch => (ch, r2)) := by
  rw [jescStep, if_neg hu]

theorem jescU_plain (v : Nat) (hv : v < 65536) (hsur : v < 55296 ∨ 57343 < v)
    (r : List Char) : jescU (hex4 v ++ r) = some (Char.ofNat v, r) := by
  unfold jescU
  rw [hexQuad?_hex4 v hv r, Option.some_bind]
  rw [if_neg (by omega), if_neg (by omega)]

theorem jescU_high (v : Nat) (hv : 55296 ≤ v ∧ v ≤ 56319) (r : List Char) :
    jescU (hex4 v ++ r) = jescPair v r := by
  unfold jescU
  rw [hexQuad?_hex4 v (by omega) r, Option.some_bind, if_pos hv]

theorem jescPair_low (v w : Nat) (hw : 56320 ≤ w ∧ w ≤ 57343) (r : List Char) :
    jescPair v ('\\' :: 'u' :: (hex4 w ++ r)) =
      some (Char.ofNat (65536 + (v - 55296) * 1024 + (w - 56320)), r) := by
  rw [jescPair, hexQuad?_hex4 w (by omega) r, Option.some_bind, if_pos hw]

theorem parseJStrF_quote (f : Nat) (rest : List Char) :
    parseJStrF (f + 1) ('"' :: rest) = some ([], rest) := by
  rw [parseJStrF, if_pos rfl]

theorem parseJStrF_backslash (f : Nat) (rest : List Char) :
    parseJStrF (f + 1) ('\\' :: rest) =
      (jescStep rest).bind (fun er =>
        (parseJStrF f er.2).map (fun pr => (er.1 :: pr.1, pr.2))) := by
  rw [parseJStrF, if_neg (by decide), if_pos rfl]

theorem parseJStrF_lit (f : Nat) (c : Char) (rest : List Char)
    (h1 : c ≠ '"') (h2 : c ≠ '\\') (h3 : ¬ c.toNat < 32) :
    parseJStrF (f + 1) (c :: rest) =
      (parseJStrF f rest).map (fun pr => (c :: pr.1, pr.2)) := by
  rw [parseJStrF, if_neg h1, if_neg h2, if_neg h3]

theorem escChar_length_pos (c : Char) : 0 < (escChar c).length := by
  unfold escChar uEsc hex4
  split_ifs <;> simp

/-- A character's code point never lies in the UTF-16 surrogate range. -/
theorem char_not_surrogate (c : Char) : c.toNat < 55296 ∨ 57343 < c.toNat := by
  rcases c.valid with h | ⟨h, _⟩
  · exact Or.inl h
  · exact Or.inr h

/-- The scanner inverts `json.dumps` string escaping, leaving the tail after
the closing quote untouched. -/
theorem parseJStrF_escStr (s : List Char) : ∀ (fuel : Nat) (rest : List Char),
    (escStr s).length < fuel →
    parseJStrF fuel (escStr s ++ '"' :: rest) = some (s, rest) := by
  induction s with
  | nil =>
    intro fuel rest hf
    obtain ⟨f, rfl⟩ : ∃ f, fuel = f + 1 := ⟨fuel - 1, by omega⟩
    exact parseJStrF_quote f rest
  | cons c t ih =>
    intro fuel rest hf
    have hesc : escStr (c :: t) = escChar c ++ escStr t := by
      unfold escStr
      rw [List.flatMap_cons]
    rw [hesc] at hf ⊢
    rw [List.append_assoc]
    have hpos := escChar_length_pos c
    obtain ⟨f, rfl⟩ : ∃ f, fuel = f + 1 := ⟨fuel - 1, by omega⟩
    have hf' : (escStr t).length < f := by
      rw [List.length_append] at hf
      omega
    have iht := ih f rest hf'
    by_cases h1 : c = '"'
    · subst h1
      rw [show escChar '"' = ['\\', '"'] from rfl, List.cons_append, List.singleton_append,
        parseJStrF_backslash, jescStep_notu _ _ (by decide),
        show escVal? '"' = some '"' from rfl, Option.map_some', Option.some_bind, iht,
        Option.map_some']
    · by_cases h2 : c = '\\'
      · subst h2
        rw [show escChar '\\' = ['\\', '\\'] from rfl, List.cons_append, List.singleton_append,
          parseJStrF_backslash, jescStep_notu _ _ (by decide),
          show escVal? '\\' = some '\\' from rfl, Option.map_some', Option.some_bind, iht,
          Option.map_some']
      · by_cases h3 : c = Char.ofNat 8
        · subst h3
          rw [show escChar (Char.ofNat 8) = ['\\', 'b'] from rfl, List.cons_append,
            List.singleton_append, parseJStrF_backslash, jescStep_notu _ _ (by decide),
            show escVal? 'b' = some (Char.ofNat 8) from rfl, Option.map_some',
            Option.some_bind, iht, Option.map_some']
        · by_cases h4 : c = Char.ofNat 12
          · subst h4
            rw [show escChar (Char.ofNat 12) = ['\\', 'f'] from rfl, List.cons_append,
              List.singleton_append, parseJStrF_backslash, jescStep_notu _ _ (by decide),
              show escVal? 'f' = some (Char.ofNat 12) from rfl, Option.map_some',
              Option.some_bind, iht, Option.map_some']
          · by_cases h5 : c = '\n'
            · subst h5
              rw [show escChar '\n' = ['\\', 'n'] from rfl, List.cons_append,
                List.singleton_append, parseJStrF_backslash, jescStep_notu _ _ (by decide),
                show escVal? 'n' = some '\n' from rfl, Option.map_some',
                Option.some_bind, iht, Option.map_some']
            · by_cases h6 : c = '\r'
              · subst h6
                rw [show escChar '\r' = ['\\', 'r'] from rfl, List.cons_append,
                  List.singleton_append, parseJStrF_backslash, jescStep_notu _ _ (by decide),
                  show escVal? 'r' = some '\r' from rfl, Option.map_some',
                  Option.some_bind, iht, Option.map_some']
              · by_cases h7 : c = '\t'
                · subst h7
                  rw [show escChar '\t' = ['\\', 't'] from rfl, List.cons_append,
                    List.singleton_append, parseJStrF_backslash, jescStep_notu _ _ (by decide),
                    show escVal? 't' = some '\t' from rfl, Option.map_some',
                    Option.some_bind, iht, Option.map_some']
                · by_cases h8 : c.toNat < 32 ∨ (127 ≤ c.toNat ∧ c.toNat < 65536)
                  · have hu : escChar c = uEsc c.toNat := by
                      unfold escChar
                      rw [if_neg h1, if_neg h2, if_neg h3, if_neg h4, if_neg h5, if_neg h6,
                        if_neg h7, if_pos h8]
                    rw [hu, show uEsc c.toNat = '\\' :: 'u' :: hex4 c.toNat from rfl,
                      List.cons_append, List.cons_append, parseJStrF_backslash, jescStep_u,
                      jescU_plain c.toNat (by omega) (char_not_surrogate c) _,
                      Option.some_bind, iht, Option.map_some', Char.ofNat_toNat]
                  · by_cases h9 : 65536 ≤ c.toNat
                    · have hv := char_toNat_lt c
                      have hu : escChar c =
                          uEsc (55296 + (c.toNat - 65536) / 1024) ++
                            uEsc (56320 + (c.toNat - 65536) % 1024) := by
                        unfold escChar
                        rw [if_neg h1, if_neg h2, if_neg h3, if_neg h4, if_neg h5, if_neg h6,
                          if_neg h7, if_neg h8, if_pos h9]
                      rw [hu, show uEsc (55296 + (c.toNat - 65536) / 1024) =
                          '\\' :: 'u' :: hex4 (55296 + (c.toNat - 65536) / 1024) from rfl,
                        show uEsc (56320 + (c.toNat - 65536) % 1024) =
                          '\\' :: 'u' :: hex4 (56320 + (c.toNat - 65536) % 1024) from rfl]
                      simp only [List.cons_append, List.append_assoc]
                      rw [parseJStrF_backslash, jescStep_u,
                        jescU_high (55296 + (c.toNat - 65536) / 1024) (by omega) _,
                        jescPair_low _ (56320 + (c.toNat - 65536) % 1024) (by omega) _,
                        Option.some_bind, iht, Option.map_some']
                      have : 65536 + (55296 + (c.toNat - 65536) / 1024 - 55296) * 1024 +
                          (56320 + (c.toNat - 65536) % 1024 - 56320) = c.toNat := by omega
                      rw [this, Char.ofNat_toNat]
                    · have hlit : escChar c = [c] := by
                        unfold escChar
                        rw [if_neg h1, if_neg h2, if_neg h3, if_neg h4, if_neg h5, if_neg h6,
                          if_neg h7, if_neg h8, if_neg h9]
                      rw [hlit, List.singleton_append,
                        parseJStrF_lit f c _ h1 h2 (by omega), iht, Option.map_some']

/-- `parseJStr` (with its own fuel supply) inverts string escaping. -/
theorem parseJStr_escStr (s rest : List Char) :
    parseJStr (escStr s ++ '"' :: rest) = some (s, rest) := by
  unfold parseJStr
  exact parseJStrF_escStr s _ rest (by simp [List.length_append]; omega)

/-- Does the input start with a decimal digit? -/
def headIsDigit : List Char → Bool
  | c :: _ => isDigit c
  | [] => false

theorem digitChar_facts : ∀ d < 10, isDigit (digitChar d) = true ∧
    (digitChar d).toNat = 48 + d ∧ digitChar d ≠ '-' ∧
    (0 < d → digitChar d ≠ '0') := by
  decide

theorem lt_pow_succ_self (n : Nat) : n < 10 ^ (n + 1) := by
  calc n < 10 ^ n := Nat.lt_pow_self (by omega) n
  _ ≤ 10 ^ (n + 1) := Nat.pow_le_pow_right (by omega) (Nat.le_succ n)

theorem digitsAcc_stop (a : Nat) (rest : List Char) (h : headIsDigit rest = false) :
    digitsAcc a rest = (a, rest) := by
  cases rest with
  | nil => rfl
  | cons c t =>
    rw [digitsAcc, if_neg]
    rw [headIsDigit] at h
    exact fun hc => by rw [hc] at h; cases h

theorem digitsAcc_run : ∀ (fuel n acc : Nat) (rest : List Char), n < 10 ^ fuel →
    digitsAcc acc (natToCharsF fuel n ++ rest) =
      digitsAcc (acc * 10 ^ (natToCharsF fuel n).length + n) rest := by
  intro fuel
  induction fuel with
  | zero =>
    intro n acc rest h
    rw [pow_zero] at h
    have h0 : n = 0 := by omega
    subst h0
    rw [natToCharsF]
    simp
  | succ f ih =>
    intro n acc rest h
    by_cases hn : n < 10
    · rw [natToCharsF, if_pos hn, List.singleton_append, digitsAcc,
        if_pos (digitChar_facts n hn).1, (digitChar_facts n hn).2.1]
      simp only [List.length_cons, List.length_nil, pow_one]
      have harg : acc * 10 + (48 + n - 48) = acc * 10 ^ 1 + n := by
        rw [pow_one]
        omega
      rw [harg]
    · rw [natToCharsF, if_neg hn, List.append_assoc, List.singleton_append]
      have hdiv : n / 10 < 10 ^ f := by
        have hp : 10 ^ (f + 1) = 10 ^ f * 10 := by ring
        omega
      rw [ih (n / 10) acc _ hdiv]
      have h10 : n % 10 < 10 := Nat.mod_lt n (by omega)
      rw [digitsAcc, if_pos (digitChar_facts _ h10).1, (digitChar_facts _ h10).2.1]
      have hlen : (natToCharsF f (n / 10) ++ [digitChar (n % 10)]).length =
          (natToCharsF f (n / 10)).length + 1 := by simp
      rw [hlen]
      have harg : (acc * 10 ^ (natToCharsF f (n / 10)).length + n / 10) * 10 +
          (48 + n % 10 - 48) =
          acc * 10 ^ ((natToCharsF f (n / 10)).length + 1) + n := by
        have h48 : 48 + n % 10 - 48 = n % 10 := by omega
        rw [h48, pow_succ, ← mul_assoc]
        omega
      rw [harg]

theorem natToCharsF_head (fuel : Nat) : ∀ n, 0 < n → n < 10 ^ fuel →
    ∃ d t, natToCharsF fuel n = digitChar d :: t ∧ 0 < d ∧ d < 10 := by
  induction fuel with
  | zero =>
    intro n h1 h2
    rw [pow_zero] at h2
    omega
  | succ f ih =>
    intro n h1 h2
    by_cases hn : n < 10
    · exact ⟨n, [], by rw [natToCharsF, if_pos hn], h1, hn⟩
    · have hdiv : n / 10 < 10 ^ f := by
        have hp : 10 ^ (f + 1) = 10 ^ f * 10 := by ring
        omega
      obtain ⟨d, t, heq, hd0, hd10⟩ := ih (n / 10) (by omega) hdiv
      exact ⟨d, t ++ [digitChar (n % 10)], by rw [natToCharsF, if_neg hn, heq]; rfl, hd0, hd10⟩

/-- `parsePosNum` inverts `natToChars` whenever no digit follows. -/
theorem parsePosNum_natToChars (n : Nat) (rest : List Char)
    (h : headIsDigit rest = false) :
    parsePosNum (natToChars n ++ rest) = some (n, rest) := by
  have hfuel : n < 10 ^ (n + 1) := lt_pow_succ_self n
  by_cases h0 : n = 0
  · subst h0
    rw [show natToChars 0 = ['0'] from rfl, List.singleton_append, parsePosNum, if_pos rfl]
  · obtain ⟨d, t, heq, hd0, hd10⟩ := natToCharsF_head (n + 1) n (by omega) hfuel
    have hrun := digitsAcc_run (n + 1) n 0 rest hfuel
    simp only [Nat.zero_mul, Nat.zero_add] at hrun
    rw [digitsAcc_stop n rest h] at hrun
    rw [heq, List.cons_append, digitsAcc, if_pos (digitChar_facts d hd10).1,
      (digitChar_facts d hd10).2.1,
      show (0 : Nat) * 10 + (48 + d - 48) = d from by omega] at hrun
    show parsePosNum (natToCharsF (n + 1) n ++ rest) = some (n, rest)
    rw [heq, List.cons_append, parsePosNum,
      if_neg (fun hc => (digitChar_facts d hd10).2.2.2 hd0 hc),
      if_pos (digitChar_facts d hd10).1, (digitChar_facts d hd10).2.1,
      show 48 + d - 48 = d from by omega, hrun]

/-- `parseNum` inverts the integer rendering of `json.dumps` whenever the
tail neither starts with a digit nor continues the number into a float. -/
theorem parseNum_intToChars (e : Int) (rest : List Char)
    (hd : headIsDigit rest = false) (hfe : parseFracExp rest = none) :
    parseNum (intToChars e ++ rest) = some (Json.int e, rest) := by
  by_cases he : e < 0
  · rw [intToChars, if_pos he, List.cons_append, parseNum, if_pos rfl, parseNumTail,
      parsePosNum_natToChars (-e).toNat rest hd]
    simp only [Option.some_bind]
    rw [hfe]
    have hcast : (((-e).toNat : Int)) = -e := by omega
    show some (Json.int (-((-e).toNat : Int)), rest) = some (Json.int e, rest)
    rw [hcast, neg_neg]
  · rw [intToChars, if_neg he]
    have hfuel : e.toNat < 10 ^ (e.toNat + 1) := lt_pow_succ_self e.toNat
    have hhead : ∃ c t2, natToChars e.toNat = c :: t2 ∧ c ≠ '-' := by
      by_cases h0 : e.toNat = 0
      · exact ⟨'0', [], by rw [h0]; rfl, by decide⟩
      · obtain ⟨d, t, heq, _, hd10⟩ := natToCharsF_head (e.toNat + 1) e.toNat (by omega) hfuel
        exact ⟨digitChar d, t, heq, (digitChar_facts d hd10).2.2.1⟩
    obtain ⟨c, t2, heq, hcm⟩ := hhead
    rw [heq, List.cons_append, parseNum, if_neg hcm, ← List.cons_append, ← heq, parseNumTail,
      parsePosNum_natToChars e.toNat rest hd]
    simp only [Option.some_bind]
    rw [hfe]
    have hcast : ((e.toNat : Int)) = e := by omega
    show some (Json.int ((e.toNat : Nat) : Int), rest) = some (Json.int e, rest)
    rw [hcast]

theorem skipWs_no (c : Char) (t : List Char) (h : isWs c = false) :
    skipWs (c :: t) = c :: t := by
  rw [skipWs]
  simp [h]

theorem skipWs_yes (c : Char) (t : List Char) (h : isWs c = true) :
    skipWs (c :: t) = skipWs t := by
  rw [skipWs]
  simp [h]

theorem expectColon_cons (r : List Char) : expectColon (':' :: r) = some r := by
  rw [expectColon, skipWs_no _ _ (by decide)]
  rfl

theorem jstr_append (k X : List Char) : jstr k ++ X = '"' :: (escStr k ++ '"' :: X) := by
  unfold jstr
  simp

theorem parseVal_quote (f : Nat) (rest : List Char) :
    parseVal (f + 1) ('"' :: rest) = (parseJStr rest).map (fun pr => (Json.str pr.1, pr.2)) := by
  rw [parseVal, if_pos rfl]

theorem parseVal_lbrace (f : Nat) (rest : List Char) :
    parseVal (f + 1) ('{' :: rest) =
      (parseMembers f true (skipWs rest)).map (fun pr => (Json.obj pr.1, pr.2)) := by
  rw [parseVal, if_neg (by decide), if_pos rfl]

theorem digit_head_facts : ∀ d < 10, digitChar d ≠ '"' ∧ digitChar d ≠ '{' ∧
    digitChar d ≠ '[' ∧ digitChar d ≠ 't' ∧ digitChar d ≠ 'f' ∧ digitChar d ≠ 'n' ∧
    digitChar d ≠ 'N' ∧ digitChar d ≠ 'I' := by
  decide

theorem parseVal_number (f : Nat) (c : Char) (rest : List Char) (vr : Json × List Char)
    (h1 : c ≠ '"') (h2 : c ≠ '{') (h3 : c ≠ '[') (h4 : c ≠ 't') (h5 : c ≠ 'f')
    (h6 : c ≠ 'n') (h8 : c ≠ 'N') (h9 : c ≠ 'I') (h7 : (c = '-' || isDigit c) = true)
    (hnum : parseNum (c :: rest) = some vr) :
    parseVal (f + 1) (c :: rest) = some vr := by
  rw [parseVal, if_neg h1, if_neg h2, if_neg h3, if_neg h4, if_neg h5, if_neg h6,
    if_neg h8, if_neg h9, if_pos h7, hnum]

theorem parseMembers_key (f : Nat) (first : Bool) (rest : List Char) :
    parseMembers (f + 1) first ('"' :: rest) =
      (parseJStr rest).bind (fun kr =>
        (expectColon kr.2).bind (fun r2 =>
          (parseVal f (skipWs r2)).bind (fun vr =>
            membersClose f kr.1 vr.1 (skipWs vr.2)))) := by
  rw [parseMembers, if_neg (by decide), if_pos rfl]

theorem membersClose_brace (f : Nat) (k : List Char) (v : Json) (r : List Char) :
    membersClose (f + 1) k v ('}' :: r) = some ([(k, v)], r) := by
  rw [membersClose]

theorem membersClose_comma (f : Nat) (k : List Char) (v : Json) (r : List Char) :
    membersClose (f + 1) k v (',' :: r) =
      (parseMembers f false (skipWs r)).map (fun mr => ((k, v) :: mr.1, mr.2)) := by
  rw [membersClose]

theorem skipWs_jstr (k X : List Char) : skipWs (jstr k ++ X) = jstr k ++ X := by
  rw [jstr_append, skipWs_no _ _ (by decide), ← jstr_append]

/-- One `"key": "value"` member: parse down to the closing decision. -/
theorem parseMembers_strMember (f : Nat) (first : Bool) (k v rest' : List Char) :
    parseMembers (f + 2) first (jstr k ++ ':' :: ' ' :: (jstr v ++ rest')) =
      membersClose (f + 1) k (Json.str v) (skipWs rest') := by
  rw [jstr_append, show f + 2 = (f + 1) + 1 from rfl, parseMembers_key,
    parseJStr_escStr k (':' :: ' ' :: (jstr v ++ rest')), Option.some_bind,
    expectColon_cons, Option.some_bind, skipWs_yes _ _ (by decide), jstr_append,
    skipWs_no _ _ (by decide), parseVal_quote, parseJStr_escStr v rest',
    Option.map_some', Option.some_bind]

theorem digit_head_facts2 : ∀ d < 10, isWs (digitChar d) = false ∧
    (digitChar d = '-' || isDigit (digitChar d)) = true := by
  decide

theorem intToChars_head (e : Int) : ∃ c0 t0, intToChars e = c0 :: t0 ∧
    isWs c0 = false ∧ c0 ≠ '"' ∧ c0 ≠ '{' ∧ c0 ≠ '[' ∧ c0 ≠ 't' ∧ c0 ≠ 'f' ∧
    c0 ≠ 'n' ∧ c0 ≠ 'N' ∧ c0 ≠ 'I' ∧ (c0 = '-' || isDigit c0) = true := by
  by_cases he : e < 0
  · refine ⟨'-', natToChars (-e).toNat, ?_, by decide, by decide, by decide, by decide,
      by decide, by decide, by decide, by decide, by decide, by decide⟩
    rw [intToChars, if_pos he]
  · have hfuel : e.toNat < 10 ^ (e.toNat + 1) := lt_pow_succ_self e.toNat
    by_cases h0 : e.toNat = 0
    · refine ⟨'0', [], ?_, by decide, by decide, by decide, by decide, by decide,
        by decide, by decide, by decide, by decide, by decide⟩
      rw [intToChars, if_neg he, h0]
      rfl
    · obtain ⟨d, t, heq, _, hd10⟩ := natToCharsF_head (e.toNat + 1) e.toNat (by omega) hfuel
      have hf1 := digit_head_facts d hd10
      have hf2 := digit_head_facts2 d hd10
      exact ⟨digitChar d, t, by rw [intToChars, if_neg he]; exact heq, hf2.1, hf1.1,
        hf1.2.1, hf1.2.2.1, hf1.2.2.2.1, hf1.2.2.2.2.1, hf1.2.2.2.2.2.1,
        hf1.2.2.2.2.2.2.1, hf1.2.2.2.2.2.2.2, hf2.2⟩

/-- One `"key": <int>` member: parse down to the closing decision. -/
theorem parseMembers_intMember (f : Nat) (first : Bool) (k : List Char) (e : Int)
    (rest' : List Char) (hd : headIsDigit rest' = false)
    (hfe : parseFracExp rest' = none) :
    parseMembers (f + 2) first (jstr k ++ ':' :: ' ' :: (intToChars e ++ rest')) =
      membersClose (f + 1) k (Json.int e) (skipWs rest') := by
  obtain ⟨c0, t0, heq0, hws, h1, h2, h3, h4, h5, h6, h8, h9, h7⟩ := intToChars_head e
  rw [jstr_append, show f + 2 = (f + 1) + 1 from rfl, parseMembers_key,
    parseJStr_escStr k (':' :: ' ' :: (intToChars e ++ rest')), Option.some_bind,
    expectColon_cons, Option.some_bind, skipWs_yes _ _ (by decide), heq0,
    List.cons_append, skipWs_no _ _ hws,
    parseVal_number f c0 _ _ h1 h2 h3 h4 h5 h6 h8 h9 h7
      (by rw [← List.cons_append, ← heq0]; exact parseNum_intToChars e rest' hd hfe),
    Option.some_bind]

/-- The scanner parses the dumped payload object back to itself, leaving the
tail untouched; 16 fuel units suffice for its five members. -/
theorem parseVal_dumps_payload (a b c r : List Char) (e : Int) (f : Nat) (rest : List Char) :
    parseVal (f + 16) (jsonDumps (payloadObj a b c r e) ++ rest) =
      some (payloadObj a b c r e, rest) := by
  have hshape : jsonDumps (payloadObj a b c r e) ++ rest =
      '{' :: (jstr (cs "id") ++ ':' :: ' ' :: (jstr a ++ ',' :: ' ' ::
        (jstr (cs "name") ++ ':' :: ' ' :: (jstr b ++ ',' :: ' ' ::
        (jstr (cs "email") ++ ':' :: ' ' :: (jstr c ++ ',' :: ' ' ::
        (jstr (cs "role") ++ ':' :: ' ' :: (jstr r ++ ',' :: ' ' ::
        (jstr (cs "exp") ++ ':' :: ' ' :: (intToChars e ++ '}' :: rest)))))))))) := by
    simp [jsonDumps, payloadObj, dumpsMembers, joinComma, List.append_assoc]
  rw [hshape, show f + 16 = (f + 15) + 1 from rfl, parseVal_lbrace, skipWs_jstr,
    show f + 15 = (f + 13) + 2 from rfl, parseMembers_strMember,
    skipWs_no _ _ (by decide), show f + 13 + 1 = (f + 13) + 1 from rfl, membersClose_comma,
    skipWs_yes _ _ (by decide), skipWs_jstr,
    show f + 13 = (f + 11) + 2 from rfl, parseMembers_strMember,
    skipWs_no _ _ (by decide), membersClose_comma,
    skipWs_yes _ _ (by decide), skipWs_jstr,
    show f + 11 = (f + 9) + 2 from rfl, parseMembers_strMember,
    skipWs_no _ _ (by decide), membersClose_comma,
    skipWs_yes _ _ (by decide), skipWs_jstr,
    show f + 9 = (f + 7) + 2 from rfl, parseMembers_strMember,
    skipWs_no _ _ (by decide), membersClose_comma,
    skipWs_yes _ _ (by decide), skipWs_jstr,
    show f + 7 = (f + 5) + 2 from rfl,
    parseMembers_intMember (f + 5) false (cs "exp") e ('}' :: rest)
      (by rw [headIsDigit]; decide) rfl,
    skipWs_no _ _ (by decide), membersClose_brace]
  simp only [Option.map_some']
  rfl

/-- The dumped payload begins with a brace and is reasonably long. -/
theorem dumps_payload_shape (a b c r : List Char) (e : Int) :
    jsonDumps (payloadObj a b c r e) =
      '{' :: (jstr (cs "id") ++ ':' :: ' ' :: (jstr a ++ ',' :: ' ' ::
        (jstr (cs "name") ++ ':' :: ' ' :: (jstr b ++ ',' :: ' ' ::
        (jstr (cs "email") ++ ':' :: ' ' :: (jstr c ++ ',' :: ' ' ::
        (jstr (cs "role") ++ ':' :: ' ' :: (jstr r ++ ',' :: ' ' ::
        (jstr (cs "exp") ++ ':' :: ' ' :: (intToChars e ++ ['}'])))))))))) := by
  simp [jsonDumps, payloadObj, dumpsMembers, joinComma, List.append_assoc]

/-- `json.loads` inverts `json.dumps` on the payload objects `create_token`
builds. -/
theorem jsonLoads_dumps_payload (a b c r : List Char) (e : Int) :
    jsonLoads (jsonDumps (payloadObj a b c r e)) = some (payloadObj a b c r e) := by
  have hlen : 7 ≤ (jsonDumps (payloadObj a b c r e)).length := by
    rw [dumps_payload_shape]
    simp [jstr, List.length_append]
    omega
  have hskip : skipWs (jsonDumps (payloadObj a b c r e)) =
      jsonDumps (payloadObj a b c r e) := by
    rw [dumps_payload_shape]
    exact skipWs_no _ _ (by decide)
  have hparse := parseVal_dumps_payload a b c r e
    (2 * (jsonDumps (payloadObj a b c r e)).length + 2 - 16) []
  rw [List.append_nil,
    show 2 * (jsonDumps (payloadObj a b c r e)).length + 2 - 16 + 16 =
      2 * (jsonDumps (payloadObj a b c r e)).length + 2 from by omega] at hparse
  unfold jsonLoads
  rw [hskip, hparse]
  rfl

theorem allAscii_nil : AllAscii [] := fun c hc => absurd hc (List.not_mem_nil c)

theorem allAscii_cons {c : Char} {t : List Char} (hc : c.toNat < 128) (ht : AllAscii t) :
    AllAscii (c :: t) := by
  intro x hx
  rcases List.mem_cons.mp hx with rfl | hx
  · exact hc
  · exact ht x hx

theorem allAscii_append {x y : List Char} (hx : AllAscii x) (hy : AllAscii y) :
    AllAscii (x ++ y) := by
  intro v hv
  rcases List.mem_append.mp hv with h | h
  · exact hx v h
  · exact hy v h

theorem hexDigitChar_ascii : ∀ d < 16, (hexDigitChar d).toNat < 128 := by decide

theorem ascii_uEsc (n : Nat) : AllAscii (uEsc n) := by
  unfold uEsc hex4
  refine allAscii_cons (by decide) (allAscii_cons (by decide) ?_)
  refine allAscii_cons (hexDigitChar_ascii _ (by omega)) ?_
  refine allAscii_cons (hexDigitChar_ascii _ (by omega)) ?_
  refine allAscii_cons (hexDigitChar_ascii _ (by omega)) ?_
  exact allAscii_cons (hexDigitChar_ascii _ (by omega)) allAscii_nil

theorem ascii_escChar (c : Char) : AllAscii (escChar c) := by
  unfold escChar
  split_ifs with h1 h2 h3 h4 h5 h6 h7 h8 h9
  · exact allAscii_cons (by decide) (allAscii_cons (by decide) allAscii_nil)
  · exact allAscii_cons (by decide) (allAscii_cons (by decide) allAscii_nil)
  · exact allAscii_cons (by decide) (allAscii_cons (by decide) allAscii_nil)
  · exact allAscii_cons (by decide) (allAscii_cons (by decide) allAscii_nil)
  · exact allAscii_cons (by decide) (allAscii_cons (by decide) allAscii_nil)
  · exact allAscii_cons (by decide) (allAscii_cons (by decide) allAscii_nil)
  · exact allAscii_cons (by decide) (allAscii_cons (by decide) allAscii_nil)
  · exact ascii_uEsc _
  · exact allAscii_append (ascii_uEsc _) (ascii_uEsc _)
  · exact allAscii_cons (by omega) allAscii_nil

theorem ascii_escStr (s : List Char) : AllAscii (escStr s) := by
  intro x hx
  unfold escStr at hx
  rw [List.mem_flatMap] at hx
  obtain ⟨c, _, hxc⟩ := hx
  exact ascii_escChar c x hxc

theorem ascii_jstr (s : List Char) : AllAscii (jstr s) := by
  unfold jstr
  exact allAscii_cons (by decide) (allAscii_append (ascii_escStr s)
    (allAscii_cons (by decide) allAscii_nil))

theorem ascii_natToCharsF (fuel : Nat) : ∀ n, AllAscii (natToCharsF fuel n) := by
  induction fuel with
  | zero => intro n; rw [natToCharsF]; exact allAscii_nil
  | succ f ih =>
    intro n
    rw [natToCharsF]
    by_cases hn : n < 10
    · rw [if_pos hn]
      exact allAscii_cons (by rw [(digitChar_facts n hn).2.1]; omega) allAscii_nil
    · rw [if_neg hn]
      have h10 : n % 10 < 10 := Nat.mod_lt n (by omega)
      exact allAscii_append (ih (n / 10))
        (allAscii_cons (by rw [(digitChar_facts _ h10).2.1]; omega) allAscii_nil)

theorem ascii_intToChars (e : Int) : AllAscii (intToChars e) := by
  unfold intToChars natToChars
  split_ifs
  · exact allAscii_cons (by decide) (ascii_natToCharsF _ _)
  · exact ascii_natToCharsF _ _

theorem ascii_dumps_payload (a b c r : List Char) (e : Int) :
    AllAscii (jsonDumps (payloadObj a b c r e)) := by
  rw [dumps_payload_shape]
  repeat
    first
    | exact allAscii_nil
    | exact ascii_jstr _
    | exact ascii_escStr _
    | exact ascii_intToChars _
    | refine allAscii_cons (by decide) ?_
    | refine allAscii_append ?_ ?_

theorem wordBytes_allBytes (w : Nat) : AllBytes (wordBytes w) := by
  intro b hb
  unfold wordBytes at hb
  simp only [List.mem_cons, List.not_mem_nil, or_false] at hb
  rcases hb with rfl | rfl | rfl | rfl <;> omega

theorem sha256_allBytes (msg : List Nat) : AllBytes (sha256 msg) := by
  intro b hb
  unfold sha256 at hb
  simp only [List.mem_append] at hb
  rcases hb with ((((((h | h) | h) | h) | h) | h) | h) | h <;>
    exact wordBytes_allBytes _ b h

theorem hmacSha256_allBytes (key msg : List Nat) : AllBytes (hmacSha256 key msg) := by
  unfold hmacSha256
  exact sha256_allBytes _

theorem sign_noDot (secretKey data : List Char) : '.' ∉ sign secretKey data := by
  unfold sign
  exact b64url_noDot (hmacSha256_allBytes _ _)

/-- `verify_token` after a successful three-way split. -/
theorem verify_token_parts (sk : List Char) (now : Int) (ok : List Char → Bool)
    (token h p s : List Char) (hs : splitOnDot token = [h, p, s]) :
    verify_token sk now ok token =
      (if sign sk (h ++ '.' :: p) = s then
        (payloadDict? p).bind (fun payload =>
          (jsonNumVal? (pyDictGetD payload (cs "exp") (.int 0))).bind (fun expv =>
            if expv.ltInt now then none
            else
              match pyDictGet? payload (cs "id"), pyDictGet? payload (cs "name"),
                    pyDictGet? payload (cs "email"), pyDictGet? payload (cs "role") with
              | some (.str idv), some (.str namev), some (.str emailv), some (.str rolev) =>
                (roleFromChars? rolev).bind (fun rr =>
                  if ok emailv then some ⟨idv, namev, emailv, rr⟩ else none)
              | _, _, _, _ => none))
      else none) := by
  rw [verify_token, hs]

/-- The payload-recovery pipeline of `verify_token` on the middle segment of
a token built over a dumped payload object: every stage succeeds and the
original members come back. -/
theorem payloadDict?_dumps (a b c r : List Char) (e : Int) :
    payloadDict? (b64url (utf8Encode (jsonDumps (payloadObj a b c r e)))) =
      some [(cs "id", Json.str a), (cs "name", Json.str b), (cs "email", Json.str c),
        (cs "role", Json.str r), (cs "exp", Json.int e)] := by
  unfold payloadDict?
  rw [b64urlDecodePadded_b64url (utf8Encode_allBytes _), Option.some_bind,
    utf8Decode_encode_ascii _ (ascii_dumps_payload a b c r e), Option.some_bind,
    jsonLoads_dumps_payload, Option.some_bind]
  rfl

/-- The three segments of a token built over a dumped payload object. -/
theorem splitOnDot_signedToken (sk : List Char) (pj : Json) :
    splitOnDot (signedToken sk pj) =
      [b64url (utf8Encode (jsonDumps headerObj)),
       b64url (utf8Encode (jsonDumps pj)),
       sign sk (b64url (utf8Encode (jsonDumps headerObj)) ++ '.' ::
         b64url (utf8Encode (jsonDumps pj)))] := by
  rw [show signedToken sk pj =
    b64url (utf8Encode (jsonDumps headerObj)) ++ '.' ::
      (b64url (utf8Encode (jsonDumps pj)) ++ '.' ::
        sign sk (b64url (utf8Encode (jsonDumps headerObj)) ++ '.' ::
          b64url (utf8Encode (jsonDumps pj)))) from rfl]
  exact splitOnDot_three _ _ _ (b64url_noDot (utf8Encode_allBytes _))
    (b64url_noDot (utf8Encode_allBytes _)) (sign_noDot _ _)

/-- What `verify_token` does on a correctly signed token whose payload is
the five-field object: the signature and decoding stages all pass, and the
outcome is decided by the expiry comparison, the role literal and the email
validator — exactly the residue of lines 60-62 of `src/main.py`. -/
theorem verify_token_signedToken (sk : List Char) (now : Int) (ok : List Char → Bool)
    (a b c r : List Char) (e : Int) :
    verify_token sk now ok (signedToken sk (payloadObj a b c r e)) =
      if e < now then none
      else (roleFromChars? r).bind (fun rr =>
        if ok c then some ⟨a, b, c, rr⟩ else none) := by
  rw [verify_token_parts sk now ok _ _ _ _ (splitOnDot_signedToken sk _), if_pos rfl,
    payloadDict?_dumps,
    Option.some_bind,
    show jsonNumVal? (pyDictGetD [(cs "id", Json.str a), (cs "name", Json.str b),
      (cs "email", Json.str c), (cs "role", Json.str r), (cs "exp", Json.int e)]
      (cs "exp") (Json.int 0)) = some (PyNum.int e) from rfl, Option.some_bind]
  simp only [show ∀ t, PyNum.ltInt (PyNum.int e) t = decide (e < t) from fun _ => rfl,
    decide_eq_true_eq]
  by_cases hev : e < now
  · rw [if_pos hev, if_pos hev]
  · rw [if_neg hev, if_neg hev]
    rfl

/-- The payload `exp` recovered from a token built over a dumped payload
object. -/
theorem tokenExp?_parts (token h p s : List Char) (hs : splitOnDot token = [h, p, s]) :
    tokenExp? token = (payloadDict? p).bind (fun payload =>
      match jsonNumVal? (pyDictGetD payload (cs "exp") (.int 0)) with
      | some (.int n) => some n
      | _ => none) := by
  rw [tokenExp?, hs]

/-- The payload `exp` recovered from a token built over a dumped payload
object. -/
theorem tokenExp?_signedToken (sk a b c r : List Char) (e : Int) :
    tokenExp? (signedToken sk (payloadObj a b c r e)) = some e := by
  rw [tokenExp?_parts _ _ _ _ (splitOnDot_signedToken sk _), payloadDict?_dumps,
    Option.some_bind]
  rfl

/-- The signature check holds on every token `signedToken` builds. -/
theorem sigMatches_signedToken (sk : List Char) (pj : Json) :
    sigMatches sk (signedToken sk pj) = true := by
  rw [sigMatches, splitOnDot_signedToken]
  simp

/-- `create_token` is `signedToken` over the payload dict of lines 38-44. -/
theorem create_token_eq_signedToken (sk : List Char) (now : Int) (u : AuthUser) :
    create_token sk now u =
      signedToken sk (payloadObj u.id u.name u.email u.role.toChars
        (now + TOKEN_EXP_SECONDS)) := rfl

/-! ## Remaining support lemmas -/

theorem b64Chars_length (digit : Nat → Char) (bs : List Nat) :
    (b64Chars digit bs).length = (4 * bs.length + 2) / 3 := by
  induction bs using b64Chars.induct digit with
  | case1 b1 b2 b3 rest ih =>
    rw [b64Chars]
    simp only [List.length_cons, ih]
    omega
  | case2 b1 b2 => simp [b64Chars]
  | case3 b1 => simp [b64Chars]
  | case4 => rfl

theorem sha256_length (msg : List Nat) : (sha256 msg).length = 32 := by
  unfold sha256 wordBytes
  simp

theorem sign_length (sk data : List Char) : (sign sk data).length = 43 := by
  unfold sign b64url hmacSha256
  rw [b64Chars_length, sha256_length]

theorem roleFromChars?_toChars (ρ : Role) : roleFromChars? ρ.toChars = some ρ := by
  cases ρ <;> rfl

/-! ## The claims -/

/-- Claim C2: for every identity (id, name, email and a role of the closed
set, with a pydantic-validated email), verifying a freshly created token
within the seven-day expiry window returns the identity unchanged. -/
theorem verify_create_token_roundtrip (sk : List Char) (now t0 : Int)
    (ok : List Char → Bool) (u : AuthUser) (hmail : ok u.email = true)
    (h1 : t0 ≤ now) (h2 : now < t0 + TOKEN_EXP_SECONDS) :
    verify_token sk now ok (create_token sk t0 u) = some u := by
  rw [create_token_eq_signedToken, verify_token_signedToken,
    if_neg (show ¬ t0 + TOKEN_EXP_SECONDS < now by omega),
    roleFromChars?_toChars, Option.some_bind, if_pos hmail]

/-- Claim C2, witness: a concrete identity round-trips five seconds after
issuance. -/
theorem verify_create_token_roundtrip_witness :
    verify_token (cs "k") 5 (fun _ => true)
        (create_token (cs "k") 0 ⟨cs "1", cs "A", cs "a@x.com", .provider⟩) =
      some ⟨cs "1", cs "A", cs "a@x.com", .provider⟩ :=
  verify_create_token_roundtrip (cs "k") 5 0 (fun _ => true)
    ⟨cs "1", cs "A", cs "a@x.com", .provider⟩ rfl (by omega) (by decide)

/-- Claim C8: the issued payload's `exp` is the issuance time plus exactly
604800 seconds, and `TOKEN_EXP_SECONDS` is exactly seven days. -/
theorem create_token_exp (sk : List Char) (t : Int) (u : AuthUser) :
    tokenExp? (create_token sk t u) = some (t + 604800) ∧
      TOKEN_EXP_SECONDS = 604800 := by
  refine ⟨?_, rfl⟩
  rw [create_token_eq_signedToken, tokenExp?_signedToken]
  rfl

/-- Claim C10: a well-signed, unexpired token whose `role` is outside the
closed literal set is rejected — and its signature really does check out. -/
theorem verify_token_unknown_role (sk : List Char) (now : Int) (ok : List Char → Bool)
    (a b c r : List Char) (e : Int)
    (hr1 : r ≠ cs "provider") (hr2 : r ≠ cs "requester") (he : now ≤ e) :
    verify_token sk now ok (signedToken sk (payloadObj a b c r e)) = none ∧
      sigMatches sk (signedToken sk (payloadObj a b c r e)) = true := by
  constructor
  · rw [verify_token_signedToken, if_neg (show ¬ e < now by omega),
      show roleFromChars? r = none from by rw [roleFromChars?, if_neg hr1, if_neg hr2]]
    rfl
  · exact sigMatches_signedToken sk _

/-- Claim C10, witness: a well-signed fresh token with role `admin` is
rejected. -/
theorem verify_token_unknown_role_witness :
    verify_token (cs "k") 0 (fun _ => true)
        (signedToken (cs "k") (payloadObj (cs "1") (cs "A") (cs "a@x.com") (cs "admin") 10)) =
        none ∧
      sigMatches (cs "k")
        (signedToken (cs "k") (payloadObj (cs "1") (cs "A") (cs "a@x.com") (cs "admin") 10)) =
        true :=
  verify_token_unknown_role (cs "k") 0 (fun _ => true) (cs "1") (cs "A") (cs "a@x.com")
    (cs "admin") 10 (by decide) (by decide) (by omega)

/-- Claim C9: whatever the cause of invalidity, rejection is the single
value `None` — two rejected tokens are indistinguishable from the result. -/
theorem verify_token_single_rejection (sk : List Char) (now : Int)
    (ok : List Char → Bool) (t1 t2 : List Char)
    (h1 : (verify_token sk now ok t1).isSome = false)
    (h2 : (verify_token sk now ok t2).isSome = false) :
    verify_token sk now ok t1 = verify_token sk now ok t2 ∧
      verify_token sk now ok t1 = none := by
  cases hv1 : verify_token sk now ok t1 with
  | some u => rw [hv1] at h1; cases h1
  | none =>
    cases hv2 : verify_token sk now ok t2 with
    | some u => rw [hv2] at h2; cases h2
    | none => exact ⟨rfl, rfl⟩

/-- Claim C9, witness: a one-segment rejection and a two-segment rejection
produce the same result. -/
theorem verify_token_single_rejection_witness :
    verify_token (cs "k") 0 (fun _ => true) (cs "x") =
        verify_token (cs "k") 0 (fun _ => true) (cs "a.b") ∧
      verify_token (cs "k") 0 (fun _ => true) (cs "x") = none :=
  verify_token_single_rejection (cs "k") 0 (fun _ => true) (cs "x") (cs "a.b")
    (by decide) (by decide)

/-- Claim C6: with a well-formed stored salt, `hash_password` is
PBKDF2-HMAC-SHA256 at 100000 iterations over the password bytes and the
decoded salt, base64-encoded; the login comparison is exact string equality
of the recomputation against the stored hash, so a stored hash always
verifies against its own password. -/
theorem hash_password_login_roundtrip (pw salt : List Char) (bs : List Nat)
    (hs : b64stdDecode salt = some bs) :
    hash_password pw salt =
        some (b64stdPadded (pbkdf2Sha256 (utf8Encode pw) bs 100000), salt) ∧
      login_password_ok pw salt (b64stdPadded (pbkdf2Sha256 (utf8Encode pw) bs 100000)) =
        some true ∧
      (∀ expectedH, login_password_ok pw salt expectedH =
        some (decide (b64stdPadded (pbkdf2Sha256 (utf8Encode pw) bs 100000) = expectedH))) := by
  have hh : hash_password pw salt =
      some (b64stdPadded (pbkdf2Sha256 (utf8Encode pw) bs 100000), salt) := by
    rw [hash_password, hs, Option.map_some']
  refine ⟨hh, ?_, ?_⟩
  · rw [login_password_ok, hh, Option.map_some']
    simp
  · intro expectedH
    rw [login_password_ok, hh, Option.map_some']

/-- Claim C6, witness: a concrete password verifies against its own stored
hash under the salt `QUJD`. -/
theorem hash_password_login_roundtrip_witness :
    login_password_ok (cs "p") (cs "QUJD")
        (b64stdPadded (pbkdf2Sha256 (utf8Encode (cs "p")) [65, 66, 67] 100000)) =
      some true :=
  (hash_password_login_roundtrip (cs "p") (cs "QUJD") [65, 66, 67] (by decide)).2.1

/-- Claim C4, counterexample: the stored salt `AB` is not well-formed
base64; `base64.b64decode` raises on it, the exception escapes
`hash_password` (modelled `none`), and the login caller does not see the
"invalid credentials" outcome — refuting "no exception escapes the
hashing/verification component". -/
theorem hash_password_bad_salt_cex :
    b64stdDecode (cs "AB") = none ∧
      hash_password (cs "p") (cs "AB") = none ∧
      login_password_ok (cs "p") (cs "AB") (cs "x") = none := by
  refine ⟨by decide, by decide, by decide⟩

/-- Claim C4, amended: a malformed stored salt is a verification failure
only when Python's decoder still accepts it — an ASCII salt whose
non-alphabet characters the lenient decode discards.  A salt it rejects —
a non-ASCII character (`ValueError` from the ASCII encoding step) or a bad
residual alphabet-character count / incomplete padding (`binascii.Error`)
— raises an exception that escapes `hash_password`, so the login caller
sees an unhandled error rather than "invalid credentials". -/
theorem hash_password_salt_behavior (pw salt storedH : List Char) :
    (b64stdDecode salt = none →
        hash_password pw salt = none ∧ login_password_ok pw salt storedH = none) ∧
      (∀ bs, b64stdDecode salt = some bs →
        login_password_ok pw salt storedH =
          some (decide (b64stdPadded (pbkdf2Sha256 (utf8Encode pw) bs 100000) = storedH))) := by
  constructor
  · intro hnone
    constructor
    · rw [hash_password, hnone]
      rfl
    · rw [login_password_ok, hash_password, hnone]
      rfl
  · intro bs hsome
    rw [login_password_ok, hash_password, hsome, Option.map_some', Option.map_some']

/-- Claim C4, amended witness: the salt `!!!` is malformed yet decodes
leniently (to no bytes), so login proceeds to an ordinary hash comparison;
the salts `AB` (bad residual count) and `é` (non-ASCII) crash instead. -/
theorem hash_password_salt_behavior_witness :
    ((hash_password (cs "p") (cs "AB") = none ∧
        login_password_ok (cs "p") (cs "AB") (cs "x") = none) ∧
      (hash_password (cs "p") (cs "é") = none ∧
        login_password_ok (cs "p") (cs "é") (cs "x") = none)) ∧
      login_password_ok (cs "p") (cs "!!!") (cs "x") =
        some (decide (b64stdPadded (pbkdf2Sha256 (utf8Encode (cs "p")) [] 100000) = cs "x")) :=
  ⟨⟨(hash_password_salt_behavior (cs "p") (cs "AB") (cs "x")).1 (by decide),
    (hash_password_salt_behavior (cs "p") (cs "é") (cs "x")).1 (by decide)⟩,
   (hash_password_salt_behavior (cs "p") (cs "!!!") (cs "x")).2 [] (by decide)⟩

/-- Claim C3, counterexample: the first segment of a concretely issued token
is not the base64url of the compact header text `{"alg":"HS256","typ":"JWT"}`
— `json.dumps` emits `{"alg": "HS256", "typ": "JWT"}`, with a space after
each separator, and the spec demands bit-exactness. -/
theorem create_token_header_bytes_cex :
    (splitOnDot (create_token (cs "k") 0 ⟨cs "1", cs "A", cs "a@x.com", .provider⟩)).head? ≠
        some (b64url (utf8Encode (cs "\x7b\"alg\":\"HS256\",\"typ\":\"JWT\"\x7d"))) ∧
      jsonDumps headerObj = cs "\x7b\"alg\": \"HS256\", \"typ\": \"JWT\"\x7d" ∧
      jsonDumps headerObj ≠ cs "\x7b\"alg\":\"HS256\",\"typ\":\"JWT\"\x7d" := by
  refine ⟨?_, by decide, by decide⟩
  rw [create_token_eq_signedToken, splitOnDot_signedToken]
  simp only [List.head?]
  decide

/-- Claim C3, amended: the token text is bit-exactly
`base64url(header_json) . base64url(payload_json) . base64url(hmac_sha256_digest)`
with unpadded URL-safe base64, where `header_json` is exactly
`{"alg": "HS256", "typ": "JWT"}` (Python's default separators put a space
after `:` and `,`) and `payload_json` parses back to exactly the object with
the identity's `id`, `name`, `email`, `role` strings and integer `exp`. -/
theorem create_token_format (sk : List Char) (t : Int) (u : AuthUser) :
    create_token sk t u =
        b64url (utf8Encode (cs "\x7b\"alg\": \"HS256\", \"typ\": \"JWT\"\x7d")) ++ '.' ::
          (b64url (utf8Encode
              (jsonDumps (payloadObj u.id u.name u.email u.role.toChars (t + 604800)))) ++ '.' ::
            b64url (hmacSha256 (utf8Encode sk) (utf8Encode
              (b64url (utf8Encode (cs "\x7b\"alg\": \"HS256\", \"typ\": \"JWT\"\x7d")) ++ '.' ::
                b64url (utf8Encode
                  (jsonDumps (payloadObj u.id u.name u.email u.role.toChars (t + 604800)))))))) ∧
      jsonLoads (jsonDumps (payloadObj u.id u.name u.email u.role.toChars (t + 604800))) =
        some (payloadObj u.id u.name u.email u.role.toChars (t + 604800)) := by
  constructor
  · rw [create_token_eq_signedToken,
      show signedToken sk (payloadObj u.id u.name u.email u.role.toChars
          (t + TOKEN_EXP_SECONDS)) =
        b64url (utf8Encode (jsonDumps headerObj)) ++ '.' ::
          (b64url (utf8Encode (jsonDumps (payloadObj u.id u.name u.email u.role.toChars
              (t + TOKEN_EXP_SECONDS)))) ++ '.' ::
            sign sk (b64url (utf8Encode (jsonDumps headerObj)) ++ '.' ::
              b64url (utf8Encode (jsonDumps (payloadObj u.id u.name u.email u.role.toChars
                (t + TOKEN_EXP_SECONDS)))))) from rfl]
    rfl
  · exact jsonLoads_dumps_payload u.id u.name u.email u.role.toChars (t + 604800)

/-- A token that does not split into exactly three segments is rejected. -/
theorem verify_token_not_three (sk : List Char) (now : Int) (ok : List Char → Bool)
    (tok : List Char) (h : (splitOnDot tok).length ≠ 3) :
    verify_token sk now ok tok = none := by
  rw [verify_token]
  rcases hsp : splitOnDot tok with _ | ⟨h1, _ | ⟨h2, _ | ⟨h3, _ | ⟨h4, t4⟩⟩⟩⟩
  · rfl
  · rfl
  · rfl
  · rw [hsp] at h
    simp at h
  · rfl

/-- Claim C5: `verify_token` is a total function into `Option`; every
structural deviation — wrong part count, undecodable or non-object payload,
missing required field — yields the rejection value `None` rather than an
escaping exception (the Python body catches every exception on this path). -/
theorem verify_token_rejects_malformed (sk : List Char) (now : Int)
    (ok : List Char → Bool) (tok : List Char) :
    ((splitOnDot tok).length ≠ 3 → verify_token sk now ok tok = none) ∧
      (∀ h p s, splitOnDot tok = [h, p, s] → payloadDict? p = none →
        verify_token sk now ok tok = none) ∧
      (∀ h p s payload, splitOnDot tok = [h, p, s] → payloadDict? p = some payload →
        (pyDictGet? payload (cs "id") = none ∨ pyDictGet? payload (cs "name") = none ∨
          pyDictGet? payload (cs "email") = none ∨ pyDictGet? payload (cs "role") = none) →
        verify_token sk now ok tok = none) := by
  refine ⟨verify_token_not_three sk now ok tok, ?_, ?_⟩
  · intro h p s hsp hpd
    rw [verify_token_parts sk now ok tok h p s hsp]
    by_cases hsig : sign sk (h ++ '.' :: p) = s
    · rw [if_pos hsig, hpd]
      rfl
    · rw [if_neg hsig]
  · intro h p s payload hsp hpd hmiss
    rw [verify_token_parts sk now ok tok h p s hsp]
    by_cases hsig : sign sk (h ++ '.' :: p) = s
    · rw [if_pos hsig, hpd, Option.some_bind]
      cases hnv : jsonNumVal? (pyDictGetD payload (cs "exp") (.int 0)) with
      | none => rfl
      | some expv =>
        rw [Option.some_bind]
        by_cases hev : expv.ltInt now = true
        · rw [if_pos hev]
        · rw [if_neg hev]
          split
          · rename_i idv namev emailv rolev hid hname hemail hrole
            rcases hmiss with hm | hm | hm | hm <;> simp_all
          · rfl
    · rw [if_neg hsig]

/-- Claim C5, witness: a token of two dot-separated parts is rejected, and
so is a three-part token whose payload segment holds a non-ASCII character
(`urlsafe_b64decode` raises `ValueError` inside the `try`). -/
theorem verify_token_rejects_malformed_witness :
    ((splitOnDot (cs "ab.cd")).length = 2 ∧
      verify_token (cs "k") 0 (fun _ => true) (cs "ab.cd") = none) ∧
      (payloadDict? (cs "é") = none ∧
        verify_token (cs "k") 0 (fun _ => true) (cs "a.é.b") = none) :=
  ⟨⟨by decide,
    (verify_token_rejects_malformed (cs "k") 0 (fun _ => true) (cs "ab.cd")).1 (by decide)⟩,
   rfl,
   (verify_token_rejects_malformed (cs "k") 0 (fun _ => true) (cs "a.é.b")).2.1
     (cs "a") (cs "é") (cs "b") (by decide) rfl⟩

/-- Claim C1 (amended): verification succeeds exactly when the token has
three segments, the third equals the recomputed HMAC-SHA256 signature over
the first two joined by a dot, the payload decodes to a JSON object whose
`exp` (a number, default 0 when absent) is not less than the current time
under Python's exact numeric comparison — not strictly greater than it —
and the payload carries string `id`, `name`, `email`, `role` fields with
the role in the closed literal set and the email accepted by the validator.
In particular a token whose `exp` compares less than the current time is
rejected regardless of signature validity (second conjunct). -/
theorem verify_token_success_iff (sk : List Char) (now : Int) (ok : List Char → Bool)
    (tok : List Char) :
    ((∃ u, verify_token sk now ok tok = some u) ↔
      (∃ h p s payload expv idv namev emailv rolev ρ,
        splitOnDot tok = [h, p, s] ∧
        sign sk (h ++ '.' :: p) = s ∧
        payloadDict? p = some payload ∧
        jsonNumVal? (pyDictGetD payload (cs "exp") (.int 0)) = some expv ∧
        expv.ltInt now = false ∧
        pyDictGet? payload (cs "id") = some (.str idv) ∧
        pyDictGet? payload (cs "name") = some (.str namev) ∧
        pyDictGet? payload (cs "email") = some (.str emailv) ∧
        pyDictGet? payload (cs "role") = some (.str rolev) ∧
        roleFromChars? rolev = some ρ ∧ ok emailv = true)) ∧
    (∀ h p s payload expv, splitOnDot tok = [h, p, s] →
      payloadDict? p = some payload →
      jsonNumVal? (pyDictGetD payload (cs "exp") (.int 0)) = some expv →
      expv.ltInt now = true → verify_token sk now ok tok = none) := by
  constructor
  · constructor
    · rintro ⟨u, hu⟩
      rcases hsp : splitOnDot tok with _ | ⟨h1, _ | ⟨h2, _ | ⟨h3, _ | ⟨h4, t4⟩⟩⟩⟩
      · rw [verify_token_not_three sk now ok tok (by rw [hsp]; simp)] at hu
        cases hu
      · rw [verify_token_not_three sk now ok tok (by rw [hsp]; simp)] at hu
        cases hu
      · rw [verify_token_not_three sk now ok tok (by rw [hsp]; simp)] at hu
        cases hu
      · rw [verify_token_parts sk now ok tok h1 h2 h3 hsp] at hu
        by_cases hsig : sign sk (h1 ++ '.' :: h2) = h3
        · rw [if_pos hsig] at hu
          cases hpd : payloadDict? h2 with
          | none => rw [hpd] at hu; simp at hu
          | some payload =>
            rw [hpd, Option.some_bind] at hu
            cases hnv : jsonNumVal? (pyDictGetD payload (cs "exp") (.int 0)) with
            | none => rw [hnv] at hu; simp at hu
            | some expv =>
              rw [hnv, Option.some_bind] at hu
              cases hev : PyNum.ltInt expv now with
              | true =>
                rw [if_pos hev] at hu
                cases hu
              | false =>
                rw [if_neg (by simp [hev])] at hu
                split at hu
                · rename_i idv namev emailv rolev hid hname hemail hrole
                  cases hρ : roleFromChars? rolev with
                  | none => rw [hρ] at hu; simp at hu
                  | some ρ =>
                    rw [hρ, Option.some_bind] at hu
                    by_cases hok : ok emailv = true
                    · exact ⟨h1, h2, h3, payload, expv, idv, namev, emailv, rolev, ρ,
                        rfl, hsig, hpd, hnv, hev, hid, hname, hemail, hrole, hρ, hok⟩
                    · rw [if_neg hok] at hu
                      cases hu
                · cases hu
        · rw [if_neg hsig] at hu
          cases hu
      · rw [verify_token_not_three sk now ok tok (by rw [hsp]; simp)] at hu
        cases hu
    · rintro ⟨h, p, s, payload, expv, idv, namev, emailv, rolev, ρ, hsp, hsig, hpd, hnv,
        hle, hid, hname, hemail, hrole, hρ, hok⟩
      refine ⟨⟨idv, namev, emailv, ρ⟩, ?_⟩
      rw [verify_token_parts sk now ok tok h p s hsp, if_pos hsig, hpd, Option.some_bind,
        hnv, Option.some_bind, if_neg (by simp [hle]), hid, hname, hemail, hrole]
      show (roleFromChars? rolev).bind (fun rr =>
        if ok emailv then some (AuthUser.mk idv namev emailv rr) else none) =
        some (AuthUser.mk idv namev emailv ρ)
      rw [hρ, Option.some_bind, if_pos hok]
  · intro h p s payload expv hsp hpd hnv hev
    rw [verify_token_parts sk now ok tok h p s hsp]
    by_cases hsig : sign sk (h ++ '.' :: p) = s
    · rw [if_pos hsig, hpd, Option.some_bind, hnv, Option.some_bind, if_pos hev]
    · rw [if_neg hsig]

/-- Claim C1 (counterexample): both directions of the claimed equivalence
fail on the actual code.  First, expiry is not strict: line 60 rejects only
when `exp < now`, so a token whose `exp` equals the current time — not
strictly greater than it — is accepted (left conjunct: at `now = 604800` a
token issued at time 0 still verifies although its `exp` is exactly
`604800`).  Second, a matching signature together with an unexpired `exp` is
not sufficient: a well-signed, unexpired token whose `role` field is the
non-literal string "bogus" is rejected (right conjunct). -/
theorem verify_token_iff_cex :
    (verify_token (cs "k") 604800 (fun _ => true)
        (create_token (cs "k") 0
          (AuthUser.mk (cs "1") (cs "A") (cs "a@x.com") Role.provider)) =
        some (AuthUser.mk (cs "1") (cs "A") (cs "a@x.com") Role.provider) ∧
      tokenExp? (create_token (cs "k") 0
        (AuthUser.mk (cs "1") (cs "A") (cs "a@x.com") Role.provider)) = some 604800 ∧
      ¬ ((604800 : Int) > 604800)) ∧
    (verify_token (cs "k") 0 (fun _ => true)
        (signedToken (cs "k")
          (payloadObj (cs "1") (cs "A") (cs "a@x.com") (cs "bogus") 10)) = none ∧
      sigMatches (cs "k") (signedToken (cs "k")
        (payloadObj (cs "1") (cs "A") (cs "a@x.com") (cs "bogus") 10)) = true ∧
      tokenExp? (signedToken (cs "k")
        (payloadObj (cs "1") (cs "A") (cs "a@x.com") (cs "bogus") 10)) = some 10 ∧
      (10 : Int) > 0) := by
  refine ⟨⟨?_, ?_, ?_⟩, ?_, ?_, ?_, ?_⟩
  · rw [create_token_eq_signedToken, verify_token_signedToken]
    rfl
  · rw [create_token_eq_signedToken, tokenExp?_signedToken]
    rfl
  · decide
  · rw [verify_token_signedToken]
    rfl
  · exact sigMatches_signedToken _ _
  · exact tokenExp?_signedToken _ _ _ _ _ _
  · decide

/-- Helper for the tamper property: on a token whose three segments are
dot-free and correctly signed, overwriting any signature character with a
different character yields a rejected token — either the replacement is a
dot (then the split has at least four parts) or the stored signature no
longer equals the recomputed one. -/
theorem verify_token_set_sig_char (sk : List Char) (now : Int) (ok : List Char → Bool)
    (H P S : List Char) (hH : '.' ∉ H) (hP : '.' ∉ P) (hS : '.' ∉ S)
    (hsig : sign sk (H ++ '.' :: P) = S) (i : Nat) (c : Char)
    (hi : i < S.length) (hne : S[i]? ≠ some c) :
    verify_token sk now ok (H ++ '.' :: (P ++ '.' :: S.set i c)) = none := by
  by_cases hc : c = '.'
  · subst hc
    apply verify_token_not_three
    rw [splitOnDot_append_dot _ _ hH, splitOnDot_append_dot _ _ hP]
    have h2 := two_le_splitOnDot_length (S.set i '.')
      (List.mem_iff_getElem?.mpr ⟨i, by rw [List.getElem?_set_self]; exact hi⟩)
    simp only [List.length_cons]
    omega
  · have hnds : '.' ∉ S.set i c := by
      intro hmem
      rcases List.mem_or_eq_of_mem_set hmem with hm | hm
      · exact hS hm
      · exact hc hm.symm
    rw [verify_token_parts sk now ok _ _ _ _ (splitOnDot_three _ _ _ hH hP hnds), if_neg]
    intro heq
    apply hne
    rw [hsig] at heq
    rw [heq, List.getElem?_set_self]
    exact hi

/-- Claim C7: for every token produced by `create_token`, overwriting any
single character of its signature segment with any other character makes
`verify_token` reject the result, at any verification time and under any
email validator. -/
theorem verify_token_sig_tamper (sk : List Char) (t now : Int) (ok : List Char → Bool)
    (u : AuthUser) (i : Nat) (c : Char) (h p sg : List Char)
    (hsplit : splitOnDot (create_token sk t u) = [h, p, sg])
    (hi : i < sg.length) (hne : sg[i]? ≠ some c) :
    verify_token sk now ok (h ++ '.' :: (p ++ '.' :: sg.set i c)) = none := by
  rw [create_token_eq_signedToken, splitOnDot_signedToken] at hsplit
  simp only [List.cons.injEq, and_true] at hsplit
  obtain ⟨hh, hp, hsg⟩ := hsplit
  subst hh
  subst hp
  subst hsg
  exact verify_token_set_sig_char sk now ok _ _ _
    (b64url_noDot (utf8Encode_allBytes _)) (b64url_noDot (utf8Encode_allBytes _))
    (sign_noDot _ _) rfl i c hi hne

/-- Claim C7 witness: the token issued at time 0 for the demo identity
splits into its header, payload and signature segments; the signature is
non-empty, its first character is not a dot, and replacing that character
with a dot makes verification fail. -/
theorem verify_token_sig_tamper_witness :
    splitOnDot (create_token (cs "k") 0
        (AuthUser.mk (cs "1") (cs "A") (cs "a@x.com") Role.provider)) =
      [b64url (utf8Encode (jsonDumps headerObj)),
       b64url (utf8Encode (jsonDumps (payloadObj (cs "1") (cs "A") (cs "a@x.com")
         (cs "provider") 604800))),
       sign (cs "k") (b64url (utf8Encode (jsonDumps headerObj)) ++ '.' ::
         b64url (utf8Encode (jsonDumps (payloadObj (cs "1") (cs "A") (cs "a@x.com")
           (cs "provider") 604800))))] ∧
    0 < (sign (cs "k") (b64url (utf8Encode (jsonDumps headerObj)) ++ '.' ::
      b64url (utf8Encode (jsonDumps (payloadObj (cs "1") (cs "A") (cs "a@x.com")
        (cs "provider") 604800))))).length ∧
    (sign (cs "k") (b64url (utf8Encode (jsonDumps headerObj)) ++ '.' ::
      b64url (utf8Encode (jsonDumps (payloadObj (cs "1") (cs "A") (cs "a@x.com")
        (cs "provider") 604800)))))[0]? ≠ some '.' ∧
    verify_token (cs "k") 0 (fun _ => true)
      (b64url (utf8Encode (jsonDumps headerObj)) ++ '.' ::
        (b64url (utf8Encode (jsonDumps (payloadObj (cs "1") (cs "A") (cs "a@x.com")
          (cs "provider") 604800))) ++ '.' ::
          (sign (cs "k") (b64url (utf8Encode (jsonDumps headerObj)) ++ '.' ::
            b64url (utf8Encode (jsonDumps (payloadObj (cs "1") (cs "A") (cs "a@x.com")
              (cs "provider") 604800))))).set 0 '.')) = none := by
  have h1 : splitOnDot (create_token (cs "k") 0
      (AuthUser.mk (cs "1") (cs "A") (cs "a@x.com") Role.provider)) =
      [b64url (utf8Encode (jsonDumps headerObj)),
       b64url (utf8Encode (jsonDumps (payloadObj (cs "1") (cs "A") (cs "a@x.com")
         (cs "provider") 604800))),
       sign (cs "k") (b64url (utf8Encode (jsonDumps headerObj)) ++ '.' ::
         b64url (utf8Encode (jsonDumps (payloadObj (cs "1") (cs "A") (cs "a@x.com")
           (cs "provider") 604800))))] := by
    rw [create_token_eq_signedToken]
    exact splitOnDot_signedToken _ _
  have h2 : 0 < (sign (cs "k") (b64url (utf8Encode (jsonDumps headerObj)) ++ '.' ::
      b64url (utf8Encode (jsonDumps (payloadObj (cs "1") (cs "A") (cs "a@x.com")
        (cs "provider") 604800))))).length := by
    rw [sign_length]
    omega
  have h3 : (sign (cs "k") (b64url (utf8Encode (jsonDumps headerObj)) ++ '.' ::
      b64url (utf8Encode (jsonDumps (payloadObj (cs "1") (cs "A") (cs "a@x.com")
        (cs "provider") 604800)))))[0]? ≠ some '.' := fun heq =>
    sign_noDot _ _ (List.mem_iff_getElem?.mpr ⟨0, heq⟩)
  exact ⟨h1, h2, h3, verify_token_sig_tamper (cs "k") 0 0 (fun _ => true)
    (AuthUser.mk (cs "1") (cs "A") (cs "a@x.com") Role.provider) 0 '.' _ _ _ h1 h2 h3⟩
